import Mathlib

/-!
# Verification of the terraform-registry-address parsing core

A shallow embedding of the `tfaddr` package: provider addresses
(`hostname/namespace/type`), component registry sources
(`hostname/namespace/name[//subdir]`) and module registry sources
(`hostname/namespace/name/target-system[//subdir]`), together with the
shared validation machinery (identifier rules, hostname normalization,
subdirectory splitting and path cleaning).

Go strings are modelled as `List Char` (`Str`).  The repository ships the
implementation's test suites and `errors.go`; the parsing/validation
functions themselves are modelled from the design document, pinned down by
the behaviour the test tables assert.  Every definition whose Go source is
not in the repository snapshot carries a doc comment starting
`Modelled from the spec:`.
-/

/-- Go strings are byte/char sequences; we model them as lists of chars. -/
abbrev Str := List Char

/-- Embed a Lean string literal as a `Str`. -/
def str (s : String) : Str := s.data

/-- ASCII decimal digit. -/
def isDigitB (c : Char) : Bool := '0' ≤ c ∧ c ≤ '9'

/-- ASCII letter. -/
def isLetterB (c : Char) : Bool := ('a' ≤ c ∧ c ≤ 'z') ∨ ('A' ≤ c ∧ c ≤ 'Z')

/-- ASCII letter or digit. -/
def isAlnumB (c : Char) : Bool := isLetterB c ∨ isDigitB c

/-- ASCII lower-casing of one char (the only normalization our hostname
model performs; `strings.ToLower` restricted to ASCII). -/
def lowerChar (c : Char) : Char :=
  if 'A' ≤ c ∧ c ≤ 'Z' then Char.ofNat (c.toNat + 32) else c

/-- ASCII lower-casing of a string. -/
def lowerStr (s : Str) : Str := s.map lowerChar

/-- Go `%q` on the strings appearing in this library's error messages
(none of which need escaping): wrap in double quotes. -/
def quoteStr (s : Str) : Str := '"' :: (s ++ ['"'])

/-- Go `strings.Split(s, sep)` for a one-char separator: splits into the
(always nonempty) list of separator-free segments; `split "" = [""]`. -/
def splitChar (sep : Char) : Str → List Str
  | [] => [[]]
  | c :: rest =>
    match splitChar sep rest with
    | [] => [[]]
    | s :: ss => if c = sep then [] :: s :: ss else (c :: s) :: ss

/-- Go `strings.Join(l, sep)` for a one-char separator. -/
def joinChar (sep : Char) : List Str → Str
  | [] => []
  | [s] => s
  | s :: rest => s ++ sep :: joinChar sep rest

/-- Whether `pat` occurs as a contiguous substring of `s`
(Go `strings.Contains`). -/
def containsSub (pat : Str) : Str → Bool
  | [] => List.isPrefixOf pat []
  | c :: rest => List.isPrefixOf pat (c :: rest) || containsSub pat rest

/-- Split at the first occurrence of `//` (Go `strings.Index(src, "//")`):
returns the part before and the part after, or `none` when `//` does not
occur.  This is the subdirectory separator search of the Subdirectory
Splitter. -/
def splitFirstDoubleSlash : Str → Option (Str × Str)
  | [] => none
  | [_] => none
  | c :: d :: rest =>
    if c = '/' ∧ d = '/' then some ([], rest)
    else (splitFirstDoubleSlash (d :: rest)).map (fun p => (c :: p.1, p.2))

/-- Split at the first `:` (host/port separation in the hostname model). -/
def splitFirstColon : Str → Option (Str × Str)
  | [] => none
  | c :: rest =>
    if c = ':' then some ([], rest)
    else (splitFirstColon rest).map (fun p => (c :: p.1, p.2))

/-- The path segment `.`. -/
def dotSeg : Str := ['.']

/-- The path segment `..`. -/
def dotDotSeg : Str := ['.', '.']

/-- The segment-resolution loop of Go `path.Clean`: processes segments
left to right over a stack (head = top), dropping empty and `.` segments,
letting `..` pop a normal segment, erasing `..` at the root when `rooted`,
and keeping leading `..`s otherwise.  Returns the resolved segments in
order. -/
def resolveSegs (rooted : Bool) : List Str → List Str → List Str
  | stack, [] => stack.reverse
  | stack, s :: rest =>
    if s = [] ∨ s = dotSeg then resolveSegs rooted stack rest
    else if s = dotDotSeg then
      match stack with
      | [] =>
        if rooted then resolveSegs rooted [] rest
        else resolveSegs rooted [dotDotSeg] rest
      | t :: stack' =>
        if t = dotDotSeg then resolveSegs rooted (dotDotSeg :: t :: stack') rest
        else resolveSegs rooted stack' rest
    else resolveSegs rooted (s :: stack) rest

/-- Reassembly step of `path.Clean`: join the resolved segments, restore
the leading slash of a rooted path, and fall back to `.` (relative) or `/`
(rooted) when no segment remains. -/
def cleanAssemble (rooted : Bool) (out : List Str) : Str :=
  if out = [] then (if rooted then ['/'] else dotSeg)
  else (if rooted then '/' :: joinChar '/' out else joinChar '/' out)

/-- Go `path.Clean`: lexical cleaning of a slash-separated path (resolve
`.`/`..`, collapse duplicate slashes; result is `.` for an empty relative
result and `/` for an empty rooted result). -/
def pathClean (p : Str) : Str :=
  if p = [] then dotSeg
  else cleanAssemble (p.head? = some '/')
    (resolveSegs (p.head? = some '/') [] (splitChar '/' p))

/-! ## Hostname model (external `terraform-svchost` service)

The spec places IDN/Unicode handling outside the core (§6): the core calls
a `normalize(raw) -> (Hostname, error)` capability that lower-cases and
validates, and a `forDisplay` capability.  We model the ASCII fragment of
that service: labels of letters/digits/dashes separated by dots, an
optional `:port` suffix of digits, ASCII lower-casing, rejection of
punycode (`xn--`) labels, and no other normalization.  `forDisplay` is the
identity on such normalized names. -/

/-- Modelled from the spec: one DNS label as accepted by the external
hostname service after lower-casing — nonempty, letters/digits/dashes, no
leading or trailing dash, and not an ASCII-compatible-encoding (`xn--`)
label (§4.1: punycode is rejected). -/
def hostLabelOk (l : Str) : Bool :=
  l ≠ [] ∧
  l.all (fun c => (isAlnumB c ∧ ¬('A' ≤ c ∧ c ≤ 'Z')) ∨ c = '-') ∧
  l.head? ≠ some '-' ∧
  l.getLast? ≠ some '-' ∧
  ¬ List.isPrefixOf (str "xn--") l

/-- Validity of the optional port part of a hostname: digits, nonempty. -/
def portPartOk : Option Str → Bool
  | none => true
  | some p => !p.isEmpty && p.all isDigitB

/-- Reattach an optional port when rendering a normalized hostname. -/
def portTail : Option Str → Str
  | none => []
  | some p => ':' :: p

/-- Validation/normalization of a split host/port pair: check the port,
ASCII-lower-case the host, check every dot-separated label, and reassemble
the normalized `host[:port]` form. -/
def svchostBuild (host : Str) (port : Option Str) : Except Str Str :=
  if portPartOk port then
    if (splitChar '.' (lowerStr host)).all hostLabelOk then
      .ok (lowerStr host ++ portTail port)
    else .error (str "invalid hostname")
  else .error (str "invalid port")

/-- Modelled from the spec: the external `svchost.ForComparison`
normalization (§6) — split an optional `:port` (digits) suffix,
ASCII-lower-case the host part, and validate every dot-separated label;
returns the normalized `host[:port]` form. -/
def svchostForComparison (raw : Str) : Except Str Str :=
  match splitFirstColon raw with
  | none => svchostBuild raw none
  | some (h, p) => svchostBuild h (some p)

/-- Modelled from the spec: `svchost.Hostname.ForDisplay` — for the ASCII
fragment we model, the display form of a normalized hostname is itself. -/
def hostForDisplay (h : Str) : Str := h

/-- `true` exactly when `h` is a fixed point of the hostname normalizer,
i.e. an already-normalized hostname. -/
def hostNormOk (h : Str) : Bool :=
  match svchostForComparison h with
  | .ok h2 => h2 = h
  | .error _ => false

/-! ## Provider addresses -/

/-- The default registry host `registry.terraform.io` shared by the three
address families. -/
def DefaultProviderRegistryHost : Str := str "registry.terraform.io"

/-- Default host for module registry sources (same registry). -/
def DefaultModuleRegistryHost : Str := str "registry.terraform.io"

/-- Default host for component registry sources (same registry). -/
def DefaultComponentRegistryHost : Str := str "registry.terraform.io"

/-- Modelled from the spec: the "legacy" sentinel namespace (§3) — the
dash, as shown by the repository README (`providers/-/grafana`) and the
`MustParseProviderSource("-/legacy")` test. -/
def LegacyProviderNamespace : Str := str "-"

/-- Modelled from the spec: the "unknown" sentinel namespace (§3, §4.4
step 2).  Its concrete spelling is a reserved non-identifier string: the
`TestValidate` table requires `Validate` to fail on a parsed
single-segment address, so the sentinel must not satisfy the identifier
rules. -/
def UnknownProviderNamespace : Str := str "?"

/-- The built-in provider host `terraform.io` (§4.4 step 6). -/
def BuiltInProviderHost : Str := str "terraform.io"

/-- The built-in provider namespace `builtin` (§4.4 step 6). -/
def BuiltInProviderNamespace : Str := str "builtin"

/-- `Provider` — a provider address `{Type, Namespace, Hostname}`
(field order as in the Go struct). -/
structure Provider where
  Type' : Str
  Namespace : Str
  Hostname : Str
deriving DecidableEq, Repr

/-- `ParserError` — the structured error of `errors.go`. -/
structure ParserError where
  Summary : Str
  Detail : Str
deriving DecidableEq, Repr

/-- `ParserError.Error()` from `errors.go`: `"<Summary>: <Detail>"`. -/
def ParserError.Error (e : ParserError) : Str :=
  e.Summary ++ str ": " ++ e.Detail

/-- The character class of the current-generation provider identifier
rule-set: ASCII letters, digits, dashes and underscores. -/
def providerPartChar (c : Char) : Bool :=
  isAlnumB c ∨ c = '-' ∨ c = '_'

/-- Whether the first character is an ASCII letter or digit. -/
def headAlnum (s : Str) : Bool :=
  match s.head? with | some c => isAlnumB c | none => false

/-- Whether the last character is an ASCII letter or digit. -/
def lastAlnum (s : Str) : Bool :=
  match s.getLast? with | some c => isAlnumB c | none => false

/-- Modelled from the spec (§4.2, newer rule generation, as asserted by
the current `TestParseProviderPart` table): nonempty, ASCII
letters/digits/dashes/underscores, with an alphanumeric first and last
character (no leading/trailing dash or underscore); consecutive interior
separators are allowed and case is preserved. -/
def providerPartOk (s : Str) : Bool :=
  !s.isEmpty && s.all providerPartChar && headAlnum s && lastAlnum s

/-- Modelled from the spec: `ParseProviderPart` (§4.2) — validate one
provider-address identifier segment, returning it unchanged (the newer
rule generation performs no case folding); error messages are the ones the
current `TestParseProviderPart` table asserts. -/
def ParseProviderPart (given : Str) : Except Str Str :=
  if given = [] then .error (str "must have at least one character")
  else if providerPartOk given then .ok given
  else if given.any (· = '.') then .error (str "dots are not allowed")
  else .error (str "must contain only letters, digits, dashes, and underscores, and may not use leading or trailing dashes or underscores")

/-- The shared "wrong shape" parse error of the provider source parser. -/
def providerSourceFormatErr : ParserError :=
  ⟨str "Invalid provider source string",
   str "The \"source\" attribute must be in the format \"[hostname/][namespace/]name\""⟩

/-- Modelled from the spec: validation of the type segment — the §4.2
identifier rules plus the provider-type-specific rule 6 reserving the
`terraform-` prefix. -/
def checkProviderType (t s : Str) : Except ParserError Str :=
  match ParseProviderPart t with
  | .error e => .error ⟨str "Invalid provider type",
      quoteStr t ++ str " in source " ++ quoteStr s ++ str ": " ++ e⟩
  | .ok t' =>
    if List.isPrefixOf (str "terraform-") t' then
      .error ⟨str "Invalid provider type",
        quoteStr t ++ str " cannot use the reserved prefix \"terraform-\""⟩
    else .ok t'

/-- Modelled from the spec: validation of a given namespace segment — the
two sentinel namespaces are accepted verbatim (§3: the sentinels are
schema-valid and must round-trip distinctly), any other value must satisfy
the §4.2 identifier rules. -/
def parseNamespaceSeg (ns s : Str) : Except ParserError Str :=
  if ns = LegacyProviderNamespace then .ok ns
  else if ns = UnknownProviderNamespace then .ok ns
  else
    match ParseProviderPart ns with
    | .error e => .error ⟨str "Invalid provider namespace",
        quoteStr ns ++ str " in source " ++ quoteStr s ++ str ": " ++ e⟩
    | .ok n => .ok n

/-- Modelled from the spec: `ParseProviderSource` (§4.4) — split on `/`,
reject empty segments and more than three segments, validate the type
(last) segment, default the namespace to the "unknown" sentinel for a
single segment, default the hostname to the default registry host, and
validate an explicit hostname through the hostname service. -/
def ParseProviderSource (s : Str) : Except ParserError Provider :=
  match splitChar '/' s with
  | [t] =>
    if t = [] then .error providerSourceFormatErr
    else
      match checkProviderType t s with
      | .error e => .error e
      | .ok t' => .ok ⟨t', UnknownProviderNamespace, DefaultProviderRegistryHost⟩
  | [ns, t] =>
    if ns = [] ∨ t = [] then .error providerSourceFormatErr
    else
      match checkProviderType t s with
      | .error e => .error e
      | .ok t' =>
        match parseNamespaceSeg ns s with
        | .error e => .error e
        | .ok n => .ok ⟨t', n, DefaultProviderRegistryHost⟩
  | [h, ns, t] =>
    if h = [] ∨ ns = [] ∨ t = [] then .error providerSourceFormatErr
    else
      match checkProviderType t s with
      | .error e => .error e
      | .ok t' =>
        match parseNamespaceSeg ns s with
        | .error e => .error e
        | .ok n =>
          match svchostForComparison h with
          | .error e => .error ⟨str "Invalid provider source hostname",
              quoteStr h ++ str " in source " ++ quoteStr s ++ str ": " ++ e⟩
          | .ok hn => .ok ⟨t', n, hn⟩
  | _ => .error providerSourceFormatErr

/-- `Provider.String()`: the canonical fully-qualified
`hostname/namespace/type` form. -/
def Provider.String (p : Provider) : Str :=
  hostForDisplay p.Hostname ++ '/' :: p.Namespace ++ '/' :: p.Type'

/-- `Provider.ForDisplay()`: omits the hostname when it is the default
registry host (as asserted by `TestProviderDisplay`). -/
def Provider.ForDisplay (p : Provider) : Str :=
  if p.Hostname = DefaultProviderRegistryHost then p.Namespace ++ '/' :: p.Type'
  else hostForDisplay p.Hostname ++ '/' :: p.Namespace ++ '/' :: p.Type'

/-- `Provider.IsBuiltIn()`: the reserved built-in host/namespace pair. -/
def Provider.IsBuiltIn (p : Provider) : Bool :=
  p.Hostname = BuiltInProviderHost ∧ p.Namespace = BuiltInProviderNamespace

/-- Modelled from the spec: `Provider.IsLegacy()` — the legacy sentinel
namespace on the default registry host (the `TestProviderIsLegacy` table:
the same sentinel on any other host is not legacy). -/
def Provider.IsLegacy (p : Provider) : Bool :=
  p.Hostname = DefaultProviderRegistryHost ∧ p.Namespace = LegacyProviderNamespace

/-- Modelled from the spec: `Provider.Validate()` (§4.4 step 7) —
re-checks that all three fields are non-zero and individually well-formed;
in particular the sentinel namespaces do not satisfy the identifier rules
and fail here (per the `TestValidate` table). -/
def Provider.Validate (p : Provider) : Except Str Unit :=
  match ParseProviderPart p.Type' with
  | .error e => .error (str "invalid provider type: " ++ e)
  | .ok _ =>
    match ParseProviderPart p.Namespace with
    | .error e => .error (str "invalid provider namespace: " ++ e)
    | .ok _ =>
      if p.Hostname = [] then .error (str "missing hostname")
      else .ok ()

/-- Modelled from the spec: `ValidateProviderAddress` — accepts only a
fully-qualified (three-segment) address that parses and whose parsed value
passes `Validate` (per the `TestValidateProviderAddress` table, where
`latte` and `coffeeshop/latte` are rejected). -/
def ValidateProviderAddress (raw : Str) : Except Str Unit :=
  if (splitChar '/' raw).length ≠ 3 then
    .error (str "invalid address format, expected \"<HOSTNAME>/<NAMESPACE>/<NAME>\"")
  else
    match ParseProviderSource raw with
    | .error e => .error e.Error
    | .ok p => p.Validate

/-! ## Subdirectory splitting (shared by component and module sources) -/

/-- Modelled from the spec: the Subdirectory Splitter (§4.3) — split at
the first literal `//`; the part after it is the subdirectory, cleaned
with `path.Clean`; no `//` means no subdirectory. -/
def splitPackageSubdir (given : Str) : Str × Str :=
  match splitFirstDoubleSlash given with
  | none => (given, [])
  | some (pkg, rest) => (pkg, if rest = [] then [] else pathClean rest)

/-- Whether a cleaned subdirectory path escapes the package root (§4.3):
it starts with `../` or is exactly `..`. -/
def subdirEscapes (subdir : Str) : Bool :=
  List.isPrefixOf (str "../") subdir || subdir = dotDotSeg

/-! ## Registry identifier rules (component / module families) -/

/-- Modelled from the spec (§4.2 with the registry length cap): a registry
namespace or package name — between one and 64 characters, ASCII letters,
digits, dashes and underscores, where dashes and underscores may not be
the prefix or suffix. -/
def registryNameOk (s : Str) : Bool :=
  !s.isEmpty && s.length ≤ 64 && s.all providerPartChar && headAlnum s && lastAlnum s

/-- The error text shared by the registry namespace/name validators. -/
def registryNameRuleMsg : Str :=
  str "must be between one and 64 characters, including ASCII letters, digits, dashes, and underscores, where dashes and underscores may not be the prefix or suffix"

/-- Modelled from the spec (§4.6 step 2): a module target system —
between one and 64 ASCII letters or digits (no dash or underscore). -/
def targetSystemOk (s : Str) : Bool :=
  !s.isEmpty && s.length ≤ 64 && s.all isAlnumB

/-- The VCS-shorthand hosts that may not be used as registry hosts
(§4.5 step 5 / §4.6 step 2). -/
def reservedVcsHosts : List Str :=
  [str "github.com", str "bitbucket.org", str "gitlab.com"]

/-- The reserved-host rejection message, parametrized by the address
family word (`component` / `module`). -/
def reservedHostMsg (kind h : Str) : Str :=
  str "can't use " ++ quoteStr h ++ str " as a " ++ kind ++
  str " registry host, because it's reserved for installing directly from version control repositories"

/-- The punycode / invalid-hostname message, parametrized by the family
word. -/
def invalidHostnameMsg (kind h : Str) : Str :=
  if containsSub (str "--") h then
    str "invalid " ++ kind ++ str " registry hostname " ++ quoteStr h ++
    str "; internationalized domain names must be given as direct unicode characters, not in punycode"
  else
    str "invalid " ++ kind ++ str " registry hostname " ++ quoteStr h

/-- Hostname acceptance for registry sources (§4.1): normalize through
the hostname service, require at least one dot, and reject the reserved
VCS-shorthand hosts.  Returns the normalized hostname. -/
def parseRegistryHost (kind h : Str) : Except Str Str :=
  match svchostForComparison h with
  | .error _ => .error (invalidHostnameMsg kind h)
  | .ok hn =>
    if !(hn.any (· = '.')) then
      .error (str "invalid " ++ kind ++ str " registry hostname: must contain at least one dot")
    else if hn ∈ reservedVcsHosts then
      .error (reservedHostMsg kind hn)
    else .ok hn

/-! ## Component sources -/

/-- `ComponentPackage` — `{Host, Namespace, Name}`. -/
structure ComponentPackage where
  Host : Str
  Namespace : Str
  Name : Str
deriving DecidableEq, Repr

/-- `Component` — a component registry source: a package plus an optional
subdirectory (empty `Subdir` means no subdirectory). -/
structure Component where
  Package : ComponentPackage
  Subdir : Str
deriving DecidableEq, Repr

/-- Namespace/name validation step of the component and module parsers:
check the dot-specific "missing hostname components" case, then the
registry namespace rule. -/
def checkRegistryNamespace (missingMsg ns : Str) : Except Str Str :=
  if ns.any (· = '.') then .error missingMsg
  else if registryNameOk ns then .ok ns
  else .error (str "invalid namespace " ++ quoteStr ns ++ str ": " ++ registryNameRuleMsg)

/-- Final validation/assembly step of the component parser: namespace and
name rules, then the `Component` value. -/
def componentFinish (host ns nm subdir : Str) : Except Str Component :=
  match checkRegistryNamespace (str "source address must have two more components after the hostname: the namespace and the name") ns with
  | .error e => .error e
  | .ok n =>
    if registryNameOk nm then .ok ⟨⟨host, n, nm⟩, subdir⟩
    else .error (str "invalid component name " ++ quoteStr nm ++ str ": " ++ registryNameRuleMsg)

/-- Modelled from the spec: `ParseComponentSource` (§4.5) — split off the
subdirectory, reject escaping subdir paths and query strings, require two
or three slash-separated segments, validate an explicit hostname (with
reserved-host rejection), and validate namespace and name with case
preserved. -/
def ParseComponentSource (raw : Str) : Except Str Component :=
  if subdirEscapes (splitPackageSubdir raw).2 then
    .error (str "subdirectory path " ++ quoteStr (splitPackageSubdir raw).2 ++ str " leads outside of the component package")
  else if raw.any (· = '?') then
    .error (str "component registry addresses may not include a query string portion")
  else
    match splitChar '/' (splitPackageSubdir raw).1 with
    | [ns, nm] => componentFinish DefaultComponentRegistryHost ns nm (splitPackageSubdir raw).2
    | [h, ns, nm] =>
      match parseRegistryHost (str "component") h with
      | .error e => .error e
      | .ok hn => componentFinish hn ns nm (splitPackageSubdir raw).2
    | _ => .error (str "a component registry source address must have either two or three slash-separated segments")

/-- `ComponentPackage.ForRegistryProtocol()`: `namespace/name`, no
hostname, no subdirectory. -/
def ComponentPackage.ForRegistryProtocol (p : ComponentPackage) : Str :=
  p.Namespace ++ '/' :: p.Name

/-- `ComponentPackage.String()`: `hostname/namespace/name`. -/
def ComponentPackage.String (p : ComponentPackage) : Str :=
  hostForDisplay p.Host ++ '/' :: p.ForRegistryProtocol

/-- `Component.String()`: fully-qualified form plus `//subdir` when a
subdirectory is present. -/
def Component.String (c : Component) : Str :=
  if c.Subdir = [] then c.Package.String
  else c.Package.String ++ '/' :: '/' :: c.Subdir

/-- `Component.ForDisplay()`: omits the hostname when it is the default
registry host. -/
def Component.ForDisplay (c : Component) : Str :=
  let core :=
    if c.Package.Host = DefaultComponentRegistryHost then c.Package.ForRegistryProtocol
    else c.Package.String
  if c.Subdir = [] then core else core ++ '/' :: '/' :: c.Subdir

/-! ## Module sources -/

/-- `ModuleRegistryPackage` — `{Host, Namespace, Name, TargetSystem}`. -/
structure ModuleRegistryPackage where
  Host : Str
  Namespace : Str
  Name : Str
  TargetSystem : Str
deriving DecidableEq, Repr

/-- `ModuleSourceRegistry` — a module registry source: a package plus an
optional subdirectory. -/
structure ModuleSourceRegistry where
  PackageAddr : ModuleRegistryPackage
  Subdir : Str
deriving DecidableEq, Repr

/-- `ModuleSource` — the closed set of module source shapes this core
produces: a local filesystem path or a registry address (remote sources
are out of scope, §3). -/
inductive ModuleSource where
  | moduleSourceLocal (path : Str)
  | moduleSourceRegistry (r : ModuleSourceRegistry)
deriving DecidableEq, Repr

/-- The local-path markers recognized by the module source dispatcher
(§4.6 step 1). -/
def moduleSourceLocalPrefixes : List Str :=
  [str "./", str "../", str ".\\", str "..\\"]

/-- Modelled from the spec: `isModuleSourceLocal` — the raw string starts
with one of the local-path markers. -/
def isModuleSourceLocal (raw : Str) : Bool :=
  moduleSourceLocalPrefixes.any (fun p => List.isPrefixOf p raw)

/-- Modelled from the spec: `parseModuleSourceLocal` (§4.6 step 1) —
normalize backslashes to forward slashes, clean the path, and keep (or
restore) the leading `./` or `../` marker. -/
def parseModuleSourceLocal (raw : Str) : Str :=
  let clean := pathClean (raw.map (fun c => if c = '\\' then '/' else c))
  if clean = dotDotSeg ∨ List.isPrefixOf (str "../") clean then clean
  else '.' :: '/' :: clean

/-- Final validation/assembly step of the module registry parser:
namespace, name and target-system rules, then the value. -/
def moduleFinish (host ns nm ts subdir : Str) : Except Str ModuleSourceRegistry :=
  match checkRegistryNamespace (str "source address must have three more components after the hostname: the namespace, the name, and the target system") ns with
  | .error e => .error e
  | .ok n =>
    if !(registryNameOk nm) then
      .error (str "invalid module name " ++ quoteStr nm ++ str ": " ++ registryNameRuleMsg)
    else if !(targetSystemOk ts) then
      .error (str "invalid target system " ++ quoteStr ts ++ str ": must be between one and 64 ASCII letters or digits")
    else .ok ⟨⟨host, n, nm, ts⟩, subdir⟩

/-- Modelled from the spec: `ParseRawModuleSourceRegistry` (§4.6 step 2)
— parse a string that is required to be a module registry address:
reject local paths, split off and check the subdirectory, reject query
strings, require three or four slash-separated segments, validate an
explicit hostname (reserved hosts rejected), and validate namespace, name
and target system with case preserved. -/
def ParseRawModuleSourceRegistry (raw : Str) : Except Str ModuleSourceRegistry :=
  if isModuleSourceLocal raw then
    .error (str "can't use local directory " ++ quoteStr raw ++ str " as a module registry address")
  else
    if subdirEscapes (splitPackageSubdir raw).2 then
      .error (str "subdirectory path " ++ quoteStr (splitPackageSubdir raw).2 ++ str " leads outside of the module package")
    else if raw.any (· = '?') then
      .error (str "module registry addresses may not include a query string portion")
    else
      match splitChar '/' (splitPackageSubdir raw).1 with
      | [ns, nm, ts] => moduleFinish DefaultModuleRegistryHost ns nm ts (splitPackageSubdir raw).2
      | [h, ns, nm, ts] =>
        match parseRegistryHost (str "module") h with
        | .error e => .error e
        | .ok hn => moduleFinish hn ns nm ts (splitPackageSubdir raw).2
      | _ => .error (str "a module registry source address must have either three or four slash-separated components")

/-- Modelled from the spec: `ParseRawModuleSource` (§4.6) — classify a
raw string as a local path or a registry address; anything else (remote
sources are outside this core, and per the test-suite comment the
dispatcher eats every registry-parse error by falling back) fails with the
uniform `unsupported module source "<raw>"` error. -/
def ParseRawModuleSource (raw : Str) : Except Str ModuleSource :=
  if isModuleSourceLocal raw then
    .ok (.moduleSourceLocal (parseModuleSourceLocal raw))
  else
    match ParseRawModuleSourceRegistry raw with
    | .ok r => .ok (.moduleSourceRegistry r)
    | .error _ => .error (str "unsupported module source " ++ quoteStr raw)

/-- `ModuleRegistryPackage.ForRegistryProtocol()`:
`namespace/name/target-system`. -/
def ModuleRegistryPackage.ForRegistryProtocol (p : ModuleRegistryPackage) : Str :=
  p.Namespace ++ '/' :: p.Name ++ '/' :: p.TargetSystem

/-- `ModuleRegistryPackage.String()`: `hostname/namespace/name/target`. -/
def ModuleRegistryPackage.String (p : ModuleRegistryPackage) : Str :=
  hostForDisplay p.Host ++ '/' :: p.ForRegistryProtocol

/-- `ModuleSourceRegistry.String()`: fully-qualified form plus `//subdir`
when a subdirectory is present. -/
def ModuleSourceRegistry.String (m : ModuleSourceRegistry) : Str :=
  if m.Subdir = [] then m.PackageAddr.String
  else m.PackageAddr.String ++ '/' :: '/' :: m.Subdir

/-- `ModuleSourceRegistry.ForDisplay()`: omits the hostname when it is
the default registry host. -/
def ModuleSourceRegistry.ForDisplay (m : ModuleSourceRegistry) : Str :=
  let core :=
    if m.PackageAddr.Host = DefaultModuleRegistryHost then m.PackageAddr.ForRegistryProtocol
    else m.PackageAddr.String
  if m.Subdir = [] then core else core ++ '/' :: '/' :: m.Subdir

/-! ## Well-formedness invariants of parsed values

These predicates characterize exactly the values the three parsers can
produce; they are what makes the round-trip theorems go through. -/

/-- A path segment that `path.Clean`'s resolution loop treats as an
ordinary name: not empty, not `.`, not `..`. -/
def normalSeg (s : Str) : Bool :=
  !s.isEmpty && s ≠ dotSeg && s ≠ dotDotSeg

/-- A namespace value as stored by the provider parser: one of the two
sentinels, or a valid identifier. -/
def providerNsOk (ns : Str) : Bool :=
  ns = LegacyProviderNamespace || ns = UnknownProviderNamespace || providerPartOk ns

/-- A type value as stored by the provider parser: a valid identifier
without the reserved `terraform-` prefix. -/
def providerTypeSegOk (t : Str) : Bool :=
  providerPartOk t && !(List.isPrefixOf (str "terraform-") t)

/-- Invariant of every `Provider` produced by `ParseProviderSource`. -/
def ProviderWF (p : Provider) : Bool :=
  providerTypeSegOk p.Type' && providerNsOk p.Namespace && hostNormOk p.Hostname

/-- Invariant of the `Subdir` field stored by the component and module
parsers: absent, or a cleaned, non-escaping, query-free path. -/
def subdirStoredOk (sub : Str) : Bool :=
  sub = [] || (pathClean sub = sub && !(subdirEscapes sub) && !(sub.any (· = '?')))

/-- Invariant of a registry host stored by the component/module parsers:
normalized, contains a dot, and not a reserved VCS-shorthand host. -/
def hostRegOk (host : Str) : Bool :=
  hostNormOk host && host.any (· = '.') && !(host ∈ reservedVcsHosts)

/-- Invariant of every `Component` produced by `ParseComponentSource`. -/
def ComponentWF (c : Component) : Bool :=
  hostRegOk c.Package.Host && registryNameOk c.Package.Namespace &&
  registryNameOk c.Package.Name && subdirStoredOk c.Subdir

/-- Invariant of every `ModuleSourceRegistry` produced by
`ParseRawModuleSourceRegistry`. -/
def ModuleWF (m : ModuleSourceRegistry) : Bool :=
  hostRegOk m.PackageAddr.Host && registryNameOk m.PackageAddr.Namespace &&
  registryNameOk m.PackageAddr.Name && targetSystemOk m.PackageAddr.TargetSystem &&
  subdirStoredOk m.Subdir

/-! ## Lemmas: splitting and joining on a separator -/

theorem splitChar_ne_nil (sep : Char) (s : Str) : splitChar sep s ≠ [] := by
  induction s with
  | nil => simp [splitChar]
  | cons c rest ih =>
    simp only [splitChar]
    cases h : splitChar sep rest with
    | nil => exact absurd h ih
    | cons t ts => by_cases hc : c = sep <;> simp [hc]

theorem splitChar_cons_eq (sep d : Char) (rest : Str) :
    ∃ u us, splitChar sep rest = u :: us ∧
      splitChar sep (d :: rest) =
        (if d = sep then [] :: u :: us else (d :: u) :: us) := by
  cases hr : splitChar sep rest with
  | nil => exact absurd hr (splitChar_ne_nil sep rest)
  | cons u us => exact ⟨u, us, rfl, by simp only [splitChar, hr]⟩

theorem splitChar_no_sep {sep : Char} {s : Str} (h : ∀ c ∈ s, c ≠ sep) :
    splitChar sep s = [s] := by
  induction s with
  | nil => rfl
  | cons c rest ih =>
    have hc : c ≠ sep := h c (by simp)
    have ih' : splitChar sep rest = [rest] := ih (fun d hd => h d (by simp [hd]))
    simp only [splitChar, ih', if_neg hc]

theorem splitChar_append {sep : Char} {a : Str} (b : Str) (h : ∀ c ∈ a, c ≠ sep) :
    splitChar sep (a ++ sep :: b) = a :: splitChar sep b := by
  induction a with
  | nil =>
    simp only [List.nil_append, splitChar]
    cases hb : splitChar sep b with
    | nil => exact absurd hb (splitChar_ne_nil sep b)
    | cons t ts => simp
  | cons c a' ih =>
    have hc : c ≠ sep := h c (by simp)
    have ih' := ih (fun d hd => h d (by simp [hd]))
    rw [List.cons_append]
    obtain ⟨u, us, hr, he⟩ := splitChar_cons_eq sep c (a' ++ sep :: b)
    rw [he, if_neg hc]
    rw [ih'] at hr
    injection hr with h1 h2
    rw [h1, h2]

theorem mem_splitChar_ne_sep {sep : Char} :
    ∀ {s : Str} (t : Str), t ∈ splitChar sep s → ∀ c ∈ t, c ≠ sep := by
  intro s
  induction s with
  | nil =>
    intro t ht c hc
    simp [splitChar] at ht
    subst ht
    simp at hc
  | cons d rest ih =>
    intro t ht c hc
    obtain ⟨u, us, hr, he⟩ := splitChar_cons_eq sep d rest
    rw [he] at ht
    by_cases hd : d = sep
    · rw [if_pos hd] at ht
      rcases List.mem_cons.mp ht with ht | ht
      · subst ht; simp at hc
      · exact ih t (hr ▸ ht) c hc
    · rw [if_neg hd] at ht
      rcases List.mem_cons.mp ht with ht | ht
      · subst ht
        rcases List.mem_cons.mp hc with hc | hc
        · subst hc; exact hd
        · exact ih u (by rw [hr]; simp) c hc
      · exact ih t (by rw [hr]; simp [ht]) c hc

theorem mem_splitChar_mem {sep : Char} :
    ∀ {s : Str} (t : Str), t ∈ splitChar sep s → ∀ c ∈ t, c ∈ s := by
  intro s
  induction s with
  | nil =>
    intro t ht c hc
    simp [splitChar] at ht
    subst ht
    simp at hc
  | cons d rest ih =>
    intro t ht c hc
    obtain ⟨u, us, hr, he⟩ := splitChar_cons_eq sep d rest
    rw [he] at ht
    by_cases hd : d = sep
    · rw [if_pos hd] at ht
      rcases List.mem_cons.mp ht with ht | ht
      · subst ht; simp at hc
      · exact List.mem_cons_of_mem d (ih t (hr ▸ ht) c hc)
    · rw [if_neg hd] at ht
      rcases List.mem_cons.mp ht with ht | ht
      · subst ht
        rcases List.mem_cons.mp hc with hc | hc
        · simp [hc]
        · exact List.mem_cons_of_mem d (ih u (by rw [hr]; simp) c hc)
      · exact List.mem_cons_of_mem d (ih t (by rw [hr]; simp [ht]) c hc)

theorem mem_joinChar {sep : Char} {l : List Str} {c : Char} (hc : c ∈ joinChar sep l) :
    c = sep ∨ ∃ t ∈ l, c ∈ t := by
  induction l with
  | nil => simp [joinChar] at hc
  | cons s rest ih =>
    cases rest with
    | nil =>
      simp only [joinChar] at hc
      exact Or.inr ⟨s, by simp, hc⟩
    | cons u us =>
      simp only [joinChar, List.mem_append, List.mem_cons] at hc
      rcases hc with hc | hc | hc
      · exact Or.inr ⟨s, by simp, hc⟩
      · exact Or.inl hc
      · rcases ih (by simpa [joinChar] using hc) with h | ⟨t, ht, hct⟩
        · exact Or.inl h
        · exact Or.inr ⟨t, by simp [ht], hct⟩

theorem splitChar_joinChar {sep : Char} {l : List Str} (hne : l ≠ [])
    (h : ∀ t ∈ l, ∀ c ∈ t, c ≠ sep) : splitChar sep (joinChar sep l) = l := by
  induction l with
  | nil => exact absurd rfl hne
  | cons s rest ih =>
    cases rest with
    | nil => exact splitChar_no_sep (h s (by simp))
    | cons u us =>
      have step : joinChar sep (s :: u :: us) = s ++ sep :: joinChar sep (u :: us) := rfl
      rw [step, splitChar_append _ (h s (by simp)),
        ih (by simp) (fun t ht c hc => h t (by simp [ht]) c hc)]

/-! ## Lemmas: locating the first `//` and the first `:` -/

theorem sfds_pass {s : Str} (t : Str) (h : ∀ c ∈ s, c ≠ '/') :
    splitFirstDoubleSlash (s ++ t) =
      (splitFirstDoubleSlash t).map (fun p => (s ++ p.1, p.2)) := by
  induction s with
  | nil =>
    rw [List.nil_append]
    cases ht : splitFirstDoubleSlash t with
    | none => rfl
    | some p => rfl
  | cons c s' ih =>
    have hc : c ≠ '/' := h c (by simp)
    have ih' := ih (fun d hd => h d (by simp [hd]))
    rw [List.cons_append]
    cases hs : s' ++ t with
    | nil =>
      rcases List.append_eq_nil.mp hs with ⟨hs1, hs2⟩
      subst hs1; subst hs2
      simp [splitFirstDoubleSlash]
    | cons d rest =>
      rw [show splitFirstDoubleSlash (c :: d :: rest) =
          (splitFirstDoubleSlash (d :: rest)).map (fun p => (c :: p.1, p.2)) by
        simp [splitFirstDoubleSlash, hc]]
      rw [← hs, ih']
      cases splitFirstDoubleSlash t with
      | none => simp
      | some p => simp

theorem sfds_some_mem {s : Str} :
    ∀ {a b : Str}, splitFirstDoubleSlash s = some (a, b) →
      (∀ c ∈ a, c ∈ s) ∧ (∀ c ∈ b, c ∈ s) := by
  induction s with
  | nil => intro a b hab; simp [splitFirstDoubleSlash] at hab
  | cons c s' ih =>
    intro a b hab
    cases s' with
    | nil => simp [splitFirstDoubleSlash] at hab
    | cons d rest =>
      by_cases hcd : c = '/' ∧ d = '/'
      · rw [show splitFirstDoubleSlash (c :: d :: rest) = some ([], rest) by
          simp [splitFirstDoubleSlash, hcd]] at hab
        injection hab with hab
        injection hab with h1 h2
        subst h1; subst h2
        exact ⟨by simp, fun e he => by simp [he]⟩
      · rw [show splitFirstDoubleSlash (c :: d :: rest) =
            (splitFirstDoubleSlash (d :: rest)).map (fun p => (c :: p.1, p.2)) by
          simp only [splitFirstDoubleSlash]
          rw [if_neg hcd]] at hab
        cases hd : splitFirstDoubleSlash (d :: rest) with
        | none => rw [hd] at hab; simp at hab
        | some p =>
          obtain ⟨p1, p2⟩ := p
          rw [hd] at hab
          have hab' : some (c :: p1, p2) = some (a, b) := hab
          injection hab' with hab2
          injection hab2 with h1 h2
          subst h2
          obtain ⟨ha, hb⟩ := ih hd
          constructor
          · intro e he
            rw [← h1] at he
            rcases List.mem_cons.mp he with he | he
            · simp [he]
            · exact List.mem_cons_of_mem c (ha e he)
          · exact fun e he => List.mem_cons_of_mem c (hb e he)

theorem joinChar_head {sep : Char} {u : Str} (us : List Str) (hu : u ≠ []) :
    ∃ c rest, joinChar sep (u :: us) = c :: rest ∧ c ∈ u := by
  cases u with
  | nil => exact absurd rfl hu
  | cons c u' =>
    cases us with
    | nil => exact ⟨c, u', rfl, by simp⟩
    | cons v vs => exact ⟨c, u' ++ sep :: joinChar sep (v :: vs), rfl, by simp⟩

theorem sfds_none_of_join {segs : List Str} (hne : segs ≠ [])
    (h : ∀ t ∈ segs, t ≠ [] ∧ ∀ c ∈ t, c ≠ '/') :
    splitFirstDoubleSlash (joinChar '/' segs) = none := by
  induction segs with
  | nil => exact absurd rfl hne
  | cons s rest ih =>
    cases rest with
    | nil =>
      have := sfds_pass (s := s) [] (h s (by simp)).2
      simpa [splitFirstDoubleSlash, joinChar] using this
    | cons u us =>
      have hs : joinChar '/' (s :: u :: us) = s ++ '/' :: joinChar '/' (u :: us) := rfl
      rw [hs, sfds_pass _ (h s (by simp)).2]
      obtain ⟨c0, r0, hj, hc0⟩ := @joinChar_head '/' u us (h u (by simp)).1
      have hc0' : c0 ≠ '/' := (h u (by simp)).2 c0 hc0
      rw [show splitFirstDoubleSlash ('/' :: joinChar '/' (u :: us)) =
          (splitFirstDoubleSlash (joinChar '/' (u :: us))).map (fun p => ('/' :: p.1, p.2)) by
        rw [hj]
        simp only [splitFirstDoubleSlash]
        rw [if_neg (by simp [hc0'])]]
      rw [ih (by simp) (fun t ht => h t (by simp [ht]))]
      rfl

theorem sfds_join_subdir {segs : List Str} (sub : Str) (hne : segs ≠ [])
    (h : ∀ t ∈ segs, t ≠ [] ∧ ∀ c ∈ t, c ≠ '/') :
    splitFirstDoubleSlash (joinChar '/' segs ++ '/' :: '/' :: sub) =
      some (joinChar '/' segs, sub) := by
  induction segs with
  | nil => exact absurd rfl hne
  | cons s rest ih =>
    cases rest with
    | nil =>
      rw [show joinChar '/' [s] = s from rfl, sfds_pass _ (h s (by simp)).2]
      simp [splitFirstDoubleSlash]
    | cons u us =>
      have hs : joinChar '/' (s :: u :: us) = s ++ '/' :: joinChar '/' (u :: us) := rfl
      rw [hs, List.append_assoc]
      rw [show ('/' :: joinChar '/' (u :: us)) ++ '/' :: '/' :: sub =
          '/' :: (joinChar '/' (u :: us) ++ '/' :: '/' :: sub) from rfl]
      rw [sfds_pass _ (h s (by simp)).2]
      obtain ⟨c0, r0, hj, hc0⟩ := @joinChar_head '/' u us (h u (by simp)).1
      have hc0' : c0 ≠ '/' := (h u (by simp)).2 c0 hc0
      have hhead : joinChar '/' (u :: us) ++ '/' :: '/' :: sub =
          c0 :: (r0 ++ '/' :: '/' :: sub) := by rw [hj]; rfl
      rw [show splitFirstDoubleSlash ('/' :: (joinChar '/' (u :: us) ++ '/' :: '/' :: sub)) =
          (splitFirstDoubleSlash (joinChar '/' (u :: us) ++ '/' :: '/' :: sub)).map
            (fun p => ('/' :: p.1, p.2)) by
        rw [hhead]
        simp only [splitFirstDoubleSlash]
        rw [if_neg (by simp [hc0'])]]
      rw [ih (by simp) (fun t ht => h t (by simp [ht]))]
      rfl

theorem sfc_no_colon {s : Str} (h : ∀ c ∈ s, c ≠ ':') : splitFirstColon s = none := by
  induction s with
  | nil => rfl
  | cons c s' ih =>
    have hc : c ≠ ':' := h c (by simp)
    rw [show splitFirstColon (c :: s') =
        (splitFirstColon s').map (fun p => (c :: p.1, p.2)) by
      simp [splitFirstColon, hc]]
    rw [ih (fun d hd => h d (by simp [hd]))]
    rfl

theorem sfc_append {h : Str} (p : Str) (hh : ∀ c ∈ h, c ≠ ':') :
    splitFirstColon (h ++ ':' :: p) = some (h, p) := by
  induction h with
  | nil => simp [splitFirstColon]
  | cons c h' ih =>
    have hc : c ≠ ':' := hh c (by simp)
    rw [List.cons_append]
    rw [show splitFirstColon (c :: (h' ++ ':' :: p)) =
        (splitFirstColon (h' ++ ':' :: p)).map (fun q => (c :: q.1, q.2)) by
      simp [splitFirstColon, hc]]
    rw [ih (fun d hd => hh d (by simp [hd]))]
    rfl

/-! ## Lemmas: `path.Clean` resolution -/

theorem normalSeg_iff {t : Str} :
    normalSeg t = true ↔ t ≠ [] ∧ t ≠ dotSeg ∧ t ≠ dotDotSeg := by
  simp [normalSeg, List.isEmpty_iff, and_assoc]

theorem resolveSegs_nil (rooted : Bool) (stack : List Str) :
    resolveSegs rooted stack [] = stack.reverse := rfl

theorem resolveSegs_skip {rooted : Bool} (stack rest : List Str) {s : Str}
    (h : s = [] ∨ s = dotSeg) :
    resolveSegs rooted stack (s :: rest) = resolveSegs rooted stack rest := by
  simp only [resolveSegs]
  rw [if_pos h]

theorem resolveSegs_push {rooted : Bool} (stack rest : List Str) {s : Str}
    (h : normalSeg s = true) :
    resolveSegs rooted stack (s :: rest) = resolveSegs rooted (s :: stack) rest := by
  obtain ⟨h1, h2, h3⟩ := normalSeg_iff.mp h
  simp only [resolveSegs]
  rw [if_neg (by simp [h1, h2]), if_neg h3]

theorem resolveSegs_dd_nil {rooted : Bool} (rest : List Str) :
    resolveSegs rooted [] (dotDotSeg :: rest) =
      if rooted then resolveSegs rooted [] rest
      else resolveSegs rooted [dotDotSeg] rest := by
  simp only [resolveSegs]
  rw [if_neg (by decide)]
  simp

theorem resolveSegs_dd_cons {rooted : Bool} (q : Str) (qs rest : List Str) :
    resolveSegs rooted (q :: qs) (dotDotSeg :: rest) =
      if q = dotDotSeg then resolveSegs rooted (dotDotSeg :: q :: qs) rest
      else resolveSegs rooted qs rest := by
  simp only [resolveSegs]
  rw [if_neg (by decide)]
  simp

theorem mem_resolveSegs {rooted : Bool} :
    ∀ (segs stack : List Str) (t : Str), t ∈ resolveSegs rooted stack segs →
      t ∈ stack ∨ t ∈ segs ∨ t = dotDotSeg := by
  intro segs
  induction segs with
  | nil =>
    intro stack t ht
    rw [resolveSegs_nil] at ht
    exact Or.inl (List.mem_reverse.mp ht)
  | cons s rest ih =>
    intro stack t ht
    by_cases h1 : s = [] ∨ s = dotSeg
    · rw [resolveSegs_skip stack rest h1] at ht
      rcases ih stack t ht with h | h | h
      · exact Or.inl h
      · exact Or.inr (Or.inl (by simp [h]))
      · exact Or.inr (Or.inr h)
    · by_cases h2 : s = dotDotSeg
      · subst h2
        cases stack with
        | nil =>
          rw [resolveSegs_dd_nil] at ht
          cases rooted with
          | true =>
            rw [if_pos rfl] at ht
            rcases ih [] t ht with h | h | h
            · exact Or.inl h
            · exact Or.inr (Or.inl (by simp [h]))
            · exact Or.inr (Or.inr h)
          | false =>
            rw [if_neg (by simp)] at ht
            rcases ih [dotDotSeg] t ht with h | h | h
            · exact Or.inr (Or.inr (by simpa using h))
            · exact Or.inr (Or.inl (by simp [h]))
            · exact Or.inr (Or.inr h)
        | cons q qs =>
          rw [resolveSegs_dd_cons] at ht
          by_cases hq : q = dotDotSeg
          · rw [if_pos hq] at ht
            rcases ih (dotDotSeg :: q :: qs) t ht with h | h | h
            · rcases List.mem_cons.mp h with h | h
              · exact Or.inr (Or.inr h)
              · exact Or.inl h
            · exact Or.inr (Or.inl (by simp [h]))
            · exact Or.inr (Or.inr h)
          · rw [if_neg hq] at ht
            rcases ih qs t ht with h | h | h
            · exact Or.inl (List.mem_cons_of_mem q h)
            · exact Or.inr (Or.inl (by simp [h]))
            · exact Or.inr (Or.inr h)
      · have hs : normalSeg s = true := by
          rw [normalSeg_iff]
          push_neg at h1
          exact ⟨h1.1, h1.2, h2⟩
        rw [resolveSegs_push stack rest hs] at ht
        rcases ih (s :: stack) t ht with h | h | h
        · rcases List.mem_cons.mp h with h | h
          · exact Or.inr (Or.inl (by simp [h]))
          · exact Or.inl h
        · exact Or.inr (Or.inl (by simp [h]))
        · exact Or.inr (Or.inr h)

theorem resolveSegs_shape {rooted : Bool} :
    ∀ (segs : List Str) (k : Nat) (realRev : List Str),
      (∀ t ∈ realRev, normalSeg t = true) →
      (rooted = true → k = 0) →
      ∃ (k' : Nat) (real' : List Str),
        (∀ t ∈ real', normalSeg t = true) ∧ (rooted = true → k' = 0) ∧
        resolveSegs rooted (realRev ++ List.replicate k dotDotSeg) segs =
          List.replicate k' dotDotSeg ++ real' := by
  intro segs
  induction segs with
  | nil =>
    intro k realRev hreal hk
    refine ⟨k, realRev.reverse, fun t ht => hreal t (List.mem_reverse.mp ht), hk, ?_⟩
    rw [resolveSegs_nil, List.reverse_append, List.reverse_replicate]
  | cons s rest ih =>
    intro k realRev hreal hk
    by_cases h1 : s = [] ∨ s = dotSeg
    · rw [resolveSegs_skip _ rest h1]
      exact ih k realRev hreal hk
    · by_cases h2 : s = dotDotSeg
      · subst h2
        cases hrr : realRev with
        | cons r rs =>
          have hr : normalSeg r = true := hreal r (by simp [hrr])
          have hrd : r ≠ dotDotSeg := (normalSeg_iff.mp hr).2.2
          rw [List.cons_append, resolveSegs_dd_cons, if_neg hrd]
          exact ih k rs (fun t ht => hreal t (by simp [hrr, ht])) hk
        | nil =>
          rw [List.nil_append]
          cases k with
          | zero =>
            rw [List.replicate_zero, resolveSegs_dd_nil]
            by_cases hroot : rooted = true
            · rw [if_pos hroot]
              have := ih 0 [] (by simp) (fun _ => rfl)
              simpa using this
            · rw [if_neg hroot]
              have := ih 1 [] (by simp) (fun h => absurd h hroot)
              simpa using this
          | succ k'' =>
            have hroot : rooted = false := by
              cases hrt : rooted with
              | false => rfl
              | true => exact absurd (hk hrt) (Nat.succ_ne_zero k'')
            rw [List.replicate_succ, resolveSegs_dd_cons, if_pos rfl]
            have := ih (k'' + 2) [] (by simp) (fun h => by rw [hroot] at h; cases h)
            simpa [List.replicate_succ] using this
      · have hs : normalSeg s = true := by
          rw [normalSeg_iff]
          push_neg at h1
          exact ⟨h1.1, h1.2, h2⟩
        rw [resolveSegs_push _ rest hs, ← List.cons_append]
        exact ih k (s :: realRev) (fun t ht => by
          rcases List.mem_cons.mp ht with ht | ht
          · rw [ht]; exact hs
          · exact hreal t ht) hk

theorem resolveSegs_all_normal {rooted : Bool} :
    ∀ (segs stack : List Str), (∀ t ∈ segs, normalSeg t = true) →
      resolveSegs rooted stack segs = stack.reverse ++ segs := by
  intro segs
  induction segs with
  | nil => intro stack _; rw [resolveSegs_nil, List.append_nil]
  | cons s rest ih =>
    intro stack h
    rw [resolveSegs_push stack rest (h s (by simp)),
      ih (s :: stack) (fun t ht => h t (by simp [ht]))]
    simp

theorem resolveSegs_false_replicate :
    ∀ (k j : Nat) (real : List Str), (∀ t ∈ real, normalSeg t = true) →
      resolveSegs false (List.replicate j dotDotSeg) (List.replicate k dotDotSeg ++ real) =
        List.replicate (j + k) dotDotSeg ++ real := by
  intro k
  induction k with
  | zero =>
    intro j real hreal
    rw [List.replicate_zero, List.nil_append, resolveSegs_all_normal _ _ hreal,
      List.reverse_replicate, Nat.add_zero]
  | succ k' ih =>
    intro j real hreal
    rw [List.replicate_succ, List.cons_append]
    cases j with
    | zero =>
      rw [List.replicate_zero, resolveSegs_dd_nil, if_neg (by simp)]
      have h1 : resolveSegs false (List.replicate 1 dotDotSeg)
          (List.replicate k' dotDotSeg ++ real) =
          List.replicate (1 + k') dotDotSeg ++ real := ih 1 real hreal
      rw [show (List.replicate 1 dotDotSeg : List Str) = [dotDotSeg] from rfl] at h1
      rw [h1, Nat.zero_add, Nat.add_comm 1 k']
    | succ j' =>
      rw [List.replicate_succ, resolveSegs_dd_cons, if_pos rfl]
      have h1 := ih (j' + 2) real hreal
      rw [show (List.replicate (j' + 2) dotDotSeg : List Str) =
          dotDotSeg :: dotDotSeg :: List.replicate j' dotDotSeg by
        rw [show j' + 2 = (j' + 1) + 1 from rfl, List.replicate_succ, List.replicate_succ]] at h1
      rw [h1, show j' + 1 + (k' + 1) = j' + 2 + k' by omega]

theorem pathClean_of_ne (p : Str) (hp : p ≠ []) :
    pathClean p = cleanAssemble (p.head? = some '/')
      (resolveSegs (p.head? = some '/') [] (splitChar '/' p)) := by
  simp only [pathClean]
  rw [if_neg hp]

theorem mem_pathClean {p : Str} {c : Char} (hc : c ∈ pathClean p) :
    c ∈ p ∨ c = '.' ∨ c = '/' := by
  by_cases hp : p = []
  · subst hp
    simp only [pathClean, if_pos rfl, dotSeg] at hc
    simp at hc
    simp [hc]
  · rw [pathClean_of_ne p hp] at hc
    unfold cleanAssemble at hc
    split at hc
    · split at hc
      · simp at hc
        simp [hc]
      · simp only [dotSeg] at hc
        simp at hc
        simp [hc]
    · have hjoin : ∀ d ∈ joinChar '/' (resolveSegs (p.head? = some '/') [] (splitChar '/' p)),
          d ∈ p ∨ d = '.' ∨ d = '/' := by
        intro d hd
        rcases mem_joinChar hd with h | ⟨t, ht, hdt⟩
        · exact Or.inr (Or.inr h)
        · rcases mem_resolveSegs _ _ t ht with h | h | h
          · simp at h
          · exact Or.inl (mem_splitChar_mem t h d hdt)
          · rw [h] at hdt
            simp only [dotDotSeg] at hdt
            simp at hdt
            exact Or.inr (Or.inl hdt)
      split at hc
      · rcases List.mem_cons.mp hc with h | h
        · exact Or.inr (Or.inr h)
        · exact hjoin c h
      · exact hjoin c hc

theorem pathClean_cleanAssemble {rooted : Bool} {out : List Str}
    (k : Nat) (real : List Str)
    (hout : out = List.replicate k dotDotSeg ++ real)
    (hnorm : ∀ t ∈ real, normalSeg t = true)
    (hk : rooted = true → k = 0)
    (hchars : ∀ t ∈ out, ∀ c ∈ t, c ≠ '/') :
    pathClean (cleanAssemble rooted out) = cleanAssemble rooted out := by
  by_cases ho : out = []
  · subst ho
    unfold cleanAssemble
    rw [if_pos rfl]
    by_cases hro : rooted = true
    · rw [if_pos hro]; decide
    · rw [if_neg hro]; decide
  · have hne : ∀ t ∈ out, t ≠ [] := by
      intro t ht
      rw [hout] at ht
      rcases List.mem_append.mp ht with h | h
      · rw [List.eq_of_mem_replicate h]; decide
      · exact (normalSeg_iff.mp (hnorm t h)).1
    obtain ⟨u, us, huus⟩ : ∃ u us, out = u :: us := by
      cases out with
      | nil => exact absurd rfl ho
      | cons u us => exact ⟨u, us, rfl⟩
    obtain ⟨c0, r0, hj, hc0u⟩ := @joinChar_head '/' u us (hne u (by rw [huus]; simp))
    rw [← huus] at hj
    have hc0 : c0 ≠ '/' := hchars u (by rw [huus]; simp) c0 hc0u
    have hsplit : splitChar '/' (joinChar '/' out) = out :=
      splitChar_joinChar ho hchars
    unfold cleanAssemble
    rw [if_neg ho]
    by_cases hro : rooted = true
    · subst hro
      rw [if_pos rfl]
      have hk0 : k = 0 := hk rfl
      subst hk0
      rw [List.replicate_zero, List.nil_append] at hout
      rw [pathClean_of_ne _ (by simp)]
      rw [show ((('/' :: joinChar '/' out).head? = some '/' : Bool)) = true by simp]
      have hsplit2 : splitChar '/' ('/' :: joinChar '/' out) = [] :: out := by
        obtain ⟨u', us', hu', he'⟩ := splitChar_cons_eq '/' '/' (joinChar '/' out)
        rw [hsplit] at hu'
        rw [he', if_pos rfl, ← hu']
      rw [hsplit2]
      rw [resolveSegs_skip _ _ (Or.inl rfl)]
      rw [resolveSegs_all_normal _ _ (by rw [← hout] at hnorm; exact hnorm)]
      rw [List.reverse_nil, List.nil_append]
      unfold cleanAssemble
      rw [if_neg ho, if_pos rfl]
    · have hro' : rooted = false := by
        cases rooted with
        | true => exact absurd rfl hro
        | false => rfl
      subst hro'
      rw [if_neg (by simp)]
      have hcne : joinChar '/' out ≠ [] := by rw [hj]; simp
      rw [pathClean_of_ne _ hcne]
      rw [show (((joinChar '/' out).head? = some '/' : Bool)) = false by
        rw [hj]; simp [hc0]]
      rw [hsplit]
      have hres := resolveSegs_false_replicate k 0 real hnorm
      rw [List.replicate_zero] at hres
      rw [hout, hres, Nat.zero_add, ← hout]
      unfold cleanAssemble
      rw [if_neg ho, if_neg (by simp)]

theorem pathClean_idem (p : Str) : pathClean (pathClean p) = pathClean p := by
  by_cases hp : p = []
  · rw [hp]; decide
  · rw [pathClean_of_ne p hp]
    obtain ⟨k', real', h1, h2, h3⟩ :=
      @resolveSegs_shape (p.head? = some '/' : Bool) (splitChar '/' p) 0 [] (by simp)
        (fun _ => rfl)
    rw [List.replicate_zero, List.append_nil] at h3
    refine pathClean_cleanAssemble k' real' h3 h1 h2 ?_
    intro t ht c hc
    rcases mem_resolveSegs _ _ t ht with h | h | h
    · simp at h
    · exact mem_splitChar_ne_sep t h c hc
    · rw [h] at hc
      simp only [dotDotSeg] at hc
      simp at hc
      rw [hc]
      decide

/-! ## Lemmas: hostname normalization -/

theorem mem_splitChar_decomp {sep : Char} :
    ∀ {s : Str} {c : Char}, c ∈ s → c = sep ∨ ∃ t ∈ splitChar sep s, c ∈ t := by
  intro s
  induction s with
  | nil => intro c hc; simp at hc
  | cons d rest ih =>
    intro c hc
    obtain ⟨u, us, hr, he⟩ := splitChar_cons_eq sep d rest
    by_cases hd : d = sep
    · rw [he, if_pos hd]
      rcases List.mem_cons.mp hc with hc | hc
      · exact Or.inl (hc.trans hd)
      · rcases ih hc with h | ⟨t, ht, hct⟩
        · exact Or.inl h
        · exact Or.inr ⟨t, by rw [hr] at ht; simp [ht], hct⟩
    · rw [he, if_neg hd]
      rcases List.mem_cons.mp hc with hc | hc
      · exact Or.inr ⟨d :: u, by simp, by simp [hc]⟩
      · rcases ih hc with h | ⟨t, ht, hct⟩
        · exact Or.inl h
        · rw [hr] at ht
          rcases List.mem_cons.mp ht with ht | ht
          · exact Or.inr ⟨d :: u, by simp, by rw [← ht]; simp [hct]⟩
          · exact Or.inr ⟨t, by simp [ht], hct⟩

theorem lowerChar_fix {c : Char} (h : ¬('A' ≤ c ∧ c ≤ 'Z')) : lowerChar c = c := by
  unfold lowerChar
  rw [if_neg h]

theorem lowerStr_fixed {s : Str} (h : ∀ c ∈ s, ¬('A' ≤ c ∧ c ≤ 'Z')) :
    lowerStr s = s := by
  induction s with
  | nil => rfl
  | cons c rest ih =>
    unfold lowerStr at *
    rw [List.map_cons, lowerChar_fix (h c (by simp)), ih (fun d hd => h d (by simp [hd]))]

theorem hostLabelOk_elim {l : Str} (h : hostLabelOk l = true) :
    l ≠ [] ∧ (∀ c ∈ l, ((isAlnumB c = true ∧ ¬('A' ≤ c ∧ c ≤ 'Z')) ∨ c = '-')) ∧
      l.head? ≠ some '-' := by
  unfold hostLabelOk at h
  simp only [Bool.decide_and, Bool.and_eq_true, decide_eq_true_eq] at h
  obtain ⟨h1, h2, h3, _⟩ := h
  refine ⟨h1, ?_, h3⟩
  intro c hc
  rw [List.all_eq_true] at h2
  have hcp := h2 c hc
  simp only [decide_eq_true_eq] at hcp
  exact hcp

theorem svchostBuild_ok_elim {host : Str} {port : Option Str} {h : Str}
    (hok : svchostBuild host port = .ok h) :
    portPartOk port = true ∧ ((splitChar '.' (lowerStr host)).all hostLabelOk) = true ∧
      h = lowerStr host ++ portTail port := by
  unfold svchostBuild at hok
  by_cases hpp : portPartOk port = true
  · rw [if_pos hpp] at hok
    by_cases hlab : ((splitChar '.' (lowerStr host)).all hostLabelOk) = true
    · rw [if_pos hlab] at hok
      injection hok with hok
      exact ⟨hpp, hlab, hok.symm⟩
    · rw [if_neg hlab] at hok
      exact Except.noConfusion hok
  · rw [if_neg hpp] at hok
    exact Except.noConfusion hok

theorem hostCore_chars {hl : Str} (hlab : ((splitChar '.' hl).all hostLabelOk) = true) :
    ∀ c ∈ hl, (isAlnumB c = true ∧ ¬('A' ≤ c ∧ c ≤ 'Z')) ∨ c = '-' ∨ c = '.' := by
  intro c hc
  rcases mem_splitChar_decomp hc with h | ⟨t, ht, hct⟩
  · exact Or.inr (Or.inr h)
  · rw [List.all_eq_true] at hlab
    rcases (hostLabelOk_elim (hlab t ht)).2.1 c hct with h | h
    · exact Or.inl h
    · exact Or.inr (Or.inl h)

theorem hostCore_ne_nil {hl : Str} (hlab : ((splitChar '.' hl).all hostLabelOk) = true) :
    hl ≠ [] := by
  intro he
  subst he
  rw [List.all_eq_true] at hlab
  have := hlab [] (by rw [show splitChar '.' ([] : Str) = [[]] from rfl]; simp)
  exact absurd this (by decide)

theorem hostCore_head {hl : Str} (hlab : ((splitChar '.' hl).all hostLabelOk) = true) :
    ∃ c rest, hl = c :: rest ∧ isAlnumB c = true ∧ ¬('A' ≤ c ∧ c ≤ 'Z') := by
  cases hhl : hl with
  | nil => exact absurd hhl (hostCore_ne_nil hlab)
  | cons c rest =>
    subst hhl
    obtain ⟨u, us, hr, he⟩ := splitChar_cons_eq '.' c rest
    rw [List.all_eq_true] at hlab
    by_cases hcdot : c = '.'
    · have : hostLabelOk [] = true := by
        apply hlab
        rw [he, if_pos hcdot]
        simp
      exact absurd this (by decide)
    · have hfirst : hostLabelOk (c :: u) = true := by
        apply hlab
        rw [he, if_neg hcdot]
        simp
      obtain ⟨_, hchars, hhead⟩ := hostLabelOk_elim hfirst
      have hcdash : c ≠ '-' := by
        intro hcd
        exact hhead (by rw [hcd]; rfl)
      rcases hchars c (by simp) with ⟨ha, hb⟩ | hd
      · exact ⟨c, rest, rfl, ha, hb⟩
      · exact absurd hd hcdash

theorem isDigitB_alnum {c : Char} (h : isDigitB c = true) :
    isAlnumB c = true ∧ ¬('A' ≤ c ∧ c ≤ 'Z') := by
  have hd : '0' ≤ c ∧ c ≤ '9' := by
    unfold isDigitB at h
    exact of_decide_eq_true h
  constructor
  · unfold isAlnumB
    rw [decide_eq_true_eq]
    exact Or.inr h
  · intro hA
    exact absurd (le_trans hA.1 hd.2) (by decide)

theorem portPart_digits {prt : Str} (hpp : portPartOk (some prt) = true) :
    prt ≠ [] ∧ ∀ c ∈ prt, isDigitB c = true := by
  unfold portPartOk at hpp
  rw [Bool.and_eq_true] at hpp
  obtain ⟨h1, h2⟩ := hpp
  rw [List.all_eq_true] at h2
  refine ⟨by simpa using h1, h2⟩

theorem svchost_ok_chars {raw h : Str} (hok : svchostForComparison raw = .ok h) :
    ∀ c ∈ h, ((isAlnumB c = true ∧ ¬('A' ≤ c ∧ c ≤ 'Z')) ∨ c = '-' ∨ c = '.' ∨ c = ':') := by
  unfold svchostForComparison at hok
  cases hsc : splitFirstColon raw with
  | none =>
    rw [hsc] at hok
    obtain ⟨_, hlab, heq⟩ := svchostBuild_ok_elim hok
    rw [heq, show portTail none = [] from rfl, List.append_nil]
    intro c hc
    rcases hostCore_chars hlab c hc with h | h | h
    · exact Or.inl h
    · exact Or.inr (Or.inl h)
    · exact Or.inr (Or.inr (Or.inl h))
  | some hp =>
    obtain ⟨hst, prt⟩ := hp
    rw [hsc] at hok
    obtain ⟨hpp, hlab, heq⟩ := svchostBuild_ok_elim hok
    rw [heq, show portTail (some prt) = ':' :: prt from rfl]
    intro c hc
    rcases List.mem_append.mp hc with hc | hc
    · rcases hostCore_chars hlab c hc with h | h | h
      · exact Or.inl h
      · exact Or.inr (Or.inl h)
      · exact Or.inr (Or.inr (Or.inl h))
    · rcases List.mem_cons.mp hc with hc | hc
      · exact Or.inr (Or.inr (Or.inr hc))
      · exact Or.inl (isDigitB_alnum ((portPart_digits hpp).2 c hc))

theorem svchost_ok_head {raw h : Str} (hok : svchostForComparison raw = .ok h) :
    ∃ c rest, h = c :: rest ∧ isAlnumB c = true := by
  unfold svchostForComparison at hok
  cases hsc : splitFirstColon raw with
  | none =>
    rw [hsc] at hok
    obtain ⟨_, hlab, heq⟩ := svchostBuild_ok_elim hok
    obtain ⟨c, rest, hcr, ha, _⟩ := hostCore_head hlab
    refine ⟨c, rest ++ portTail none, ?_, ha⟩
    rw [heq, hcr]
    rfl
  | some hp =>
    obtain ⟨hst, prt⟩ := hp
    rw [hsc] at hok
    obtain ⟨_, hlab, heq⟩ := svchostBuild_ok_elim hok
    obtain ⟨c, rest, hcr, ha, _⟩ := hostCore_head hlab
    refine ⟨c, rest ++ portTail (some prt), ?_, ha⟩
    rw [heq, hcr]
    rfl

theorem svchost_idem {raw h : Str} (hok : svchostForComparison raw = .ok h) :
    svchostForComparison h = .ok h := by
  unfold svchostForComparison at hok
  cases hsc : splitFirstColon raw with
  | none =>
    rw [hsc] at hok
    obtain ⟨_, hlab, heq⟩ := svchostBuild_ok_elim hok
    have hh : h = lowerStr raw := by
      rw [heq, show portTail none = [] from rfl, List.append_nil]
    have hcore := hostCore_chars hlab
    have hnc : ∀ c ∈ lowerStr raw, c ≠ ':' := by
      intro c hc hceq
      rcases hcore c hc with ⟨ha, _⟩ | hd | hd
      · rw [hceq] at ha; exact absurd ha (by decide)
      · rw [hceq] at hd; exact absurd hd (by decide)
      · rw [hceq] at hd; exact absurd hd (by decide)
    have hfix : lowerStr (lowerStr raw) = lowerStr raw := by
      apply lowerStr_fixed
      intro c hc
      rcases hcore c hc with ⟨_, hup⟩ | hd | hd
      · exact hup
      · rw [hd]; decide
      · rw [hd]; decide
    have hstep : svchostForComparison (lowerStr raw) = svchostBuild (lowerStr raw) none := by
      unfold svchostForComparison
      rw [sfc_no_colon hnc]
    rw [hh, hstep]
    unfold svchostBuild
    rw [if_pos (show portPartOk none = true from rfl), hfix, if_pos hlab,
      show portTail none = [] from rfl, List.append_nil]
  | some hp =>
    obtain ⟨hst, prt⟩ := hp
    rw [hsc] at hok
    obtain ⟨hpp, hlab, heq⟩ := svchostBuild_ok_elim hok
    have hh : h = lowerStr hst ++ ':' :: prt := by
      rw [heq, show portTail (some prt) = ':' :: prt from rfl]
    have hcore := hostCore_chars hlab
    have hnc : ∀ c ∈ lowerStr hst, c ≠ ':' := by
      intro c hc hceq
      rcases hcore c hc with ⟨ha, _⟩ | hd | hd
      · rw [hceq] at ha; exact absurd ha (by decide)
      · rw [hceq] at hd; exact absurd hd (by decide)
      · rw [hceq] at hd; exact absurd hd (by decide)
    have hfix : lowerStr (lowerStr hst) = lowerStr hst := by
      apply lowerStr_fixed
      intro c hc
      rcases hcore c hc with ⟨_, hup⟩ | hd | hd
      · exact hup
      · rw [hd]; decide
      · rw [hd]; decide
    have hstep : svchostForComparison (lowerStr hst ++ ':' :: prt) =
        svchostBuild (lowerStr hst) (some prt) := by
      unfold svchostForComparison
      rw [sfc_append prt hnc]
    rw [hh, hstep]
    unfold svchostBuild
    rw [if_pos hpp, hfix, if_pos hlab]
    rfl

theorem hostNormOk_of_ok {raw h : Str} (hok : svchostForComparison raw = .ok h) :
    hostNormOk h = true := by
  unfold hostNormOk
  rw [svchost_idem hok]
  simp

theorem svchost_of_hostNormOk {h : Str} (hn : hostNormOk h = true) :
    svchostForComparison h = .ok h := by
  unfold hostNormOk at hn
  cases hsv : svchostForComparison h with
  | ok h2 =>
    rw [hsv] at hn
    simp only [decide_eq_true_eq] at hn
    rw [hn]
  | error e =>
    rw [hsv] at hn
    exact Bool.noConfusion hn

/-! ## Lemmas: identifier validators -/

theorem providerPartOk_elim {s : Str} (h : providerPartOk s = true) :
    s ≠ [] ∧ ∀ c ∈ s, providerPartChar c = true := by
  unfold providerPartOk at h
  simp only [Bool.and_eq_true] at h
  obtain ⟨⟨⟨h1, h2⟩, _⟩, _⟩ := h
  rw [List.all_eq_true] at h2
  exact ⟨by simpa using h1, h2⟩

theorem providerPartChar_not_special {c : Char} (h : providerPartChar c = true) :
    c ≠ '/' ∧ c ≠ '?' ∧ c ≠ '.' ∧ c ≠ ':' := by
  refine ⟨?_, ?_, ?_, ?_⟩ <;> intro he <;> rw [he] at h <;> exact absurd h (by decide)

theorem isAlnumB_providerPartChar {c : Char} (h : isAlnumB c = true) :
    providerPartChar c = true := by
  unfold providerPartChar
  simp [h]

theorem no_dot_of_chars {s : Str} (h : ∀ c ∈ s, providerPartChar c = true) :
    (s.any (· = '.')) = false := by
  rw [List.any_eq_false]
  intro c hc
  simp only [decide_eq_true_eq]
  exact (providerPartChar_not_special (h c hc)).2.2.1

theorem no_query_of_chars {s : Str} (h : ∀ c ∈ s, providerPartChar c = true) :
    (s.any (· = '?')) = false := by
  rw [List.any_eq_false]
  intro c hc
  simp only [decide_eq_true_eq]
  exact (providerPartChar_not_special (h c hc)).2.1

theorem ParseProviderPart_ok_elim {s t : Str} (h : ParseProviderPart s = .ok t) :
    t = s ∧ providerPartOk s = true := by
  unfold ParseProviderPart at h
  by_cases h1 : s = []
  · rw [if_pos h1] at h; exact Except.noConfusion h
  · rw [if_neg h1] at h
    by_cases h2 : providerPartOk s = true
    · rw [if_pos h2] at h
      injection h with h
      exact ⟨h.symm, h2⟩
    · rw [if_neg h2] at h
      by_cases h3 : (s.any (· = '.')) = true
      · rw [if_pos h3] at h; exact Except.noConfusion h
      · rw [if_neg h3] at h; exact Except.noConfusion h

theorem ParseProviderPart_of_ok {s : Str} (h : providerPartOk s = true) :
    ParseProviderPart s = .ok s := by
  unfold ParseProviderPart
  rw [if_neg (providerPartOk_elim h).1, if_pos h]

theorem checkProviderType_ok_elim {t s t' : Str} (h : checkProviderType t s = .ok t') :
    t' = t ∧ providerTypeSegOk t = true := by
  unfold checkProviderType at h
  cases hpp : ParseProviderPart t with
  | error e => rw [hpp] at h; exact Except.noConfusion h
  | ok t2 =>
    rw [hpp] at h
    obtain ⟨ht2, hok⟩ := ParseProviderPart_ok_elim hpp
    split at h
    · exact Except.noConfusion h
    next hpre =>
      injection hpre with hpre
      subst hpre
      split at h
      · exact Except.noConfusion h
      next hpre2 =>
        injection h with h
        refine ⟨h.symm.trans ht2, ?_⟩
        unfold providerTypeSegOk
        rw [ht2] at hpre2
        simp [hok, hpre2]

theorem checkProviderType_of_ok {t : Str} (s : Str) (h : providerTypeSegOk t = true) :
    checkProviderType t s = .ok t := by
  unfold providerTypeSegOk at h
  rw [Bool.and_eq_true] at h
  obtain ⟨h1, h2⟩ := h
  unfold checkProviderType
  rw [ParseProviderPart_of_ok h1]
  simp only [Bool.not_eq_true'] at h2
  simp [h2]

theorem parseNamespaceSeg_ok_elim {ns s n : Str} (h : parseNamespaceSeg ns s = .ok n) :
    n = ns ∧ providerNsOk ns = true := by
  unfold parseNamespaceSeg at h
  by_cases h1 : ns = LegacyProviderNamespace
  · rw [if_pos h1] at h
    injection h with h
    exact ⟨h.symm, by unfold providerNsOk; simp [h1]⟩
  · rw [if_neg h1] at h
    by_cases h2 : ns = UnknownProviderNamespace
    · rw [if_pos h2] at h
      injection h with h
      exact ⟨h.symm, by unfold providerNsOk; simp [h2]⟩
    · rw [if_neg h2] at h
      cases hpp : ParseProviderPart ns with
      | error e => rw [hpp] at h; exact Except.noConfusion h
      | ok n2 =>
        rw [hpp] at h
        injection h with h
        obtain ⟨hn2, hok⟩ := ParseProviderPart_ok_elim hpp
        refine ⟨h.symm.trans hn2, ?_⟩
        unfold providerNsOk
        simp [hok]

theorem parseNamespaceSeg_of_ok {ns : Str} (s : Str) (h : providerNsOk ns = true) :
    parseNamespaceSeg ns s = .ok ns := by
  unfold providerNsOk at h
  unfold parseNamespaceSeg
  by_cases h1 : ns = LegacyProviderNamespace
  · rw [if_pos h1]
  · rw [if_neg h1]
    by_cases h2 : ns = UnknownProviderNamespace
    · rw [if_pos h2]
    · rw [if_neg h2]
      simp only [Bool.or_eq_true, decide_eq_true_eq] at h
      rw [ParseProviderPart_of_ok (h.resolve_left (not_or.mpr ⟨h1, h2⟩))]

theorem registryNameOk_elim {s : Str} (h : registryNameOk s = true) :
    s ≠ [] ∧ ∀ c ∈ s, providerPartChar c = true := by
  unfold registryNameOk at h
  simp only [Bool.and_eq_true] at h
  obtain ⟨⟨⟨⟨h1, _⟩, h2⟩, _⟩, _⟩ := h
  rw [List.all_eq_true] at h2
  exact ⟨by simpa using h1, h2⟩

theorem targetSystemOk_elim {s : Str} (h : targetSystemOk s = true) :
    s ≠ [] ∧ ∀ c ∈ s, providerPartChar c = true := by
  unfold targetSystemOk at h
  simp only [Bool.and_eq_true] at h
  obtain ⟨⟨h1, _⟩, h2⟩ := h
  rw [List.all_eq_true] at h2
  exact ⟨by simpa using h1, fun c hc => isAlnumB_providerPartChar (h2 c hc)⟩

theorem checkRegistryNamespace_ok_elim {m ns n : Str}
    (h : checkRegistryNamespace m ns = .ok n) : n = ns ∧ registryNameOk ns = true := by
  unfold checkRegistryNamespace at h
  by_cases h1 : (ns.any (· = '.')) = true
  · rw [if_pos h1] at h; exact Except.noConfusion h
  · rw [if_neg h1] at h
    by_cases h2 : registryNameOk ns = true
    · rw [if_pos h2] at h
      injection h with h
      exact ⟨h.symm, h2⟩
    · rw [if_neg h2] at h; exact Except.noConfusion h

theorem checkRegistryNamespace_of_ok {ns : Str} (m : Str) (h : registryNameOk ns = true) :
    checkRegistryNamespace m ns = .ok ns := by
  unfold checkRegistryNamespace
  rw [show (ns.any (· = '.')) = false from no_dot_of_chars (registryNameOk_elim h).2,
    if_neg (by simp), if_pos h]

/-! ## Lemmas: provider parsing invariants and round-trip -/

theorem hostchar_ne {c : Char}
    (h : (isAlnumB c = true ∧ ¬('A' ≤ c ∧ c ≤ 'Z')) ∨ c = '-' ∨ c = '.' ∨ c = ':') :
    c ≠ '/' ∧ c ≠ '?' := by
  constructor <;> intro he <;> subst he <;>
    rcases h with ⟨ha, _⟩ | h | h | h <;>
    first
    | exact absurd ha (by decide)
    | exact absurd h (by decide)

theorem providerNsOk_facts {ns : Str} (h : providerNsOk ns = true) :
    ns ≠ [] ∧ ∀ c ∈ ns, c ≠ '/' := by
  unfold providerNsOk at h
  simp only [Bool.or_eq_true, decide_eq_true_eq] at h
  rcases h with (h | h) | h
  · subst h
    exact ⟨by decide, by decide⟩
  · subst h
    exact ⟨by decide, by decide⟩
  · obtain ⟨h1, h2⟩ := providerPartOk_elim h
    exact ⟨h1, fun c hc => (providerPartChar_not_special (h2 c hc)).1⟩

theorem providerTypeSegOk_facts {t : Str} (h : providerTypeSegOk t = true) :
    t ≠ [] ∧ ∀ c ∈ t, c ≠ '/' := by
  unfold providerTypeSegOk at h
  rw [Bool.and_eq_true] at h
  obtain ⟨h1, h2⟩ := providerPartOk_elim h.1
  exact ⟨h1, fun c hc => (providerPartChar_not_special (h2 c hc)).1⟩

theorem ParseProviderSource_wf {s : Str} {a : Provider}
    (hp : ParseProviderSource s = .ok a) : ProviderWF a = true := by
  have hnsU : providerNsOk UnknownProviderNamespace = true := by decide
  have hhD : hostNormOk DefaultProviderRegistryHost = true := by decide
  unfold ParseProviderSource at hp
  split at hp
  · -- one segment
    split at hp
    · exact Except.noConfusion hp
    · split at hp
      · exact Except.noConfusion hp
      next t' hct =>
        injection hp with hp
        rw [← hp]
        obtain ⟨ht', htok⟩ := checkProviderType_ok_elim hct
        unfold ProviderWF
        simp [ht', htok, hnsU, hhD]
  · -- two segments
    split at hp
    · exact Except.noConfusion hp
    · split at hp
      · exact Except.noConfusion hp
      next t' hct =>
        split at hp
        · exact Except.noConfusion hp
        next n hns =>
          injection hp with hp
          rw [← hp]
          obtain ⟨ht', htok⟩ := checkProviderType_ok_elim hct
          obtain ⟨hn', hnok⟩ := parseNamespaceSeg_ok_elim hns
          unfold ProviderWF
          simp [ht', htok, hn', hnok, hhD]
  · -- three segments
    split at hp
    · exact Except.noConfusion hp
    · split at hp
      · exact Except.noConfusion hp
      next t' hct =>
        split at hp
        · exact Except.noConfusion hp
        next n hns =>
          split at hp
          · exact Except.noConfusion hp
          next hn hsv =>
            injection hp with hp
            rw [← hp]
            obtain ⟨ht', htok⟩ := checkProviderType_ok_elim hct
            obtain ⟨hn', hnok⟩ := parseNamespaceSeg_ok_elim hns
            unfold ProviderWF
            simp [ht', htok, hn', hnok, hostNormOk_of_ok hsv]
  · exact Except.noConfusion hp

theorem ParseProviderSource_roundtrip {a : Provider} (hw : ProviderWF a = true) :
    ParseProviderSource (Provider.String a) = .ok a := by
  unfold ProviderWF at hw
  simp only [Bool.and_eq_true] at hw
  obtain ⟨⟨htok, hnok⟩, hhok⟩ := hw
  have hhost := svchost_of_hostNormOk hhok
  have hostchars := svchost_ok_chars hhost
  obtain ⟨c0, r0, hhd, _⟩ := svchost_ok_head hhost
  have hostne : a.Hostname ≠ [] := by rw [hhd]; simp
  have hostns : ∀ c ∈ a.Hostname, c ≠ '/' := fun c hc => (hostchar_ne (hostchars c hc)).1
  obtain ⟨nsne, nsns⟩ := providerNsOk_facts hnok
  obtain ⟨tne, tns⟩ := providerTypeSegOk_facts htok
  have hsplit : splitChar '/' (Provider.String a) =
      [a.Hostname, a.Namespace, a.Type'] := by
    unfold Provider.String hostForDisplay
    rw [List.append_assoc, List.cons_append, splitChar_append _ hostns,
      splitChar_append _ nsns, splitChar_no_sep tns]
  unfold ParseProviderSource
  simp only [hsplit]
  rw [if_neg (by simp [hostne, nsne, tne]),
    checkProviderType_of_ok (Provider.String a) htok,
    parseNamespaceSeg_of_ok (Provider.String a) hnok, hhost]

/-! ## Lemmas: registry hosts, subdirectories and the component family -/

theorem registryNameOk_facts {s : Str} (h : registryNameOk s = true) :
    s ≠ [] ∧ (∀ c ∈ s, c ≠ '/') ∧ (∀ c ∈ s, c ≠ '?') := by
  obtain ⟨h1, h2⟩ := registryNameOk_elim h
  exact ⟨h1, fun c hc => (providerPartChar_not_special (h2 c hc)).1,
    fun c hc => (providerPartChar_not_special (h2 c hc)).2.1⟩

theorem targetSystemOk_facts {s : Str} (h : targetSystemOk s = true) :
    s ≠ [] ∧ (∀ c ∈ s, c ≠ '/') ∧ (∀ c ∈ s, c ≠ '?') := by
  obtain ⟨h1, h2⟩ := targetSystemOk_elim h
  exact ⟨h1, fun c hc => (providerPartChar_not_special (h2 c hc)).1,
    fun c hc => (providerPartChar_not_special (h2 c hc)).2.1⟩

theorem hostRegOk_elim {host : Str} (h : hostRegOk host = true) :
    hostNormOk host = true ∧ (host.any (· = '.')) = true ∧ ¬(host ∈ reservedVcsHosts) := by
  unfold hostRegOk at h
  simp only [Bool.and_eq_true, Bool.not_eq_true', decide_eq_false_iff_not] at h
  exact ⟨h.1.1, h.1.2, h.2⟩

theorem parseRegistryHost_of_ok {host : Str} (kind : Str) (h : hostRegOk host = true) :
    parseRegistryHost kind host = .ok host := by
  obtain ⟨h1, h2, h3⟩ := hostRegOk_elim h
  unfold parseRegistryHost
  simp only [svchost_of_hostNormOk h1]
  rw [if_neg (by simp [h2]), if_neg (by simpa using h3)]

theorem parseRegistryHost_ok_elim {kind host hn : Str}
    (h : parseRegistryHost kind host = .ok hn) : hostRegOk hn = true := by
  unfold parseRegistryHost at h
  cases hsv : svchostForComparison host with
  | error e => rw [hsv] at h; exact Except.noConfusion h
  | ok h2 =>
    rw [hsv] at h
    split at h
    next e heq => exact Except.noConfusion heq
    next t2 heq =>
      injection heq with heq
      subst heq
      split at h
      · exact Except.noConfusion h
      next hdotc =>
        split at h
        · exact Except.noConfusion h
        next hres =>
          injection h with h
          subst h
          unfold hostRegOk
          simp only [Bool.and_eq_true]
          refine ⟨⟨hostNormOk_of_ok hsv, by simpa using hdotc⟩, by simpa using hres⟩

theorem splitPackageSubdir_stored {raw : Str} (hq : (raw.any (· = '?')) = false)
    (hesc : subdirEscapes (splitPackageSubdir raw).2 = false) :
    subdirStoredOk (splitPackageSubdir raw).2 = true := by
  unfold splitPackageSubdir at hesc ⊢
  cases hs : splitFirstDoubleSlash raw with
  | none => simp [subdirStoredOk]
  | some pr =>
    obtain ⟨pkg, rest⟩ := pr
    simp only [hs] at hesc ⊢
    by_cases hr : rest = []
    · simp [hr, subdirStoredOk]
    · rw [if_neg hr] at hesc ⊢
      have hrq : (rest.any (· = '?')) = false := by
        rw [List.any_eq_false] at hq ⊢
        intro c hc
        exact hq c ((sfds_some_mem hs).2 c hc)
      have hcq : ((pathClean rest).any (· = '?')) = false := by
        rw [List.any_eq_false] at hrq ⊢
        intro c hc
        simp only [decide_eq_true_eq] at *
        rcases mem_pathClean hc with h | h | h
        · exact hrq c h
        · rw [h]; decide
        · rw [h]; decide
      unfold subdirStoredOk
      simp [pathClean_idem rest, hesc, hcq]

theorem subdirStoredOk_elim {sub : Str} (h : subdirStoredOk sub = true) :
    subdirEscapes sub = false ∧ (sub.any (· = '?')) = false ∧
      (sub = [] ∨ pathClean sub = sub) := by
  unfold subdirStoredOk at h
  simp only [Bool.or_eq_true, Bool.and_eq_true, decide_eq_true_eq, Bool.not_eq_true'] at h
  rcases h with h | ⟨⟨hclean, hesc⟩, hq⟩
  · subst h
    exact ⟨by decide, by decide, Or.inl rfl⟩
  · exact ⟨hesc, hq, Or.inr hclean⟩

theorem ComponentPackage_String_join (p : ComponentPackage) :
    p.String = joinChar '/' [p.Host, p.Namespace, p.Name] := rfl

theorem ModuleRegistryPackage_String_join (p : ModuleRegistryPackage) :
    p.String = joinChar '/' [p.Host, p.Namespace, p.Name, p.TargetSystem] := by
  unfold ModuleRegistryPackage.String ModuleRegistryPackage.ForRegistryProtocol hostForDisplay
  rw [show joinChar '/' [p.Host, p.Namespace, p.Name, p.TargetSystem] =
      p.Host ++ '/' :: (p.Namespace ++ '/' :: (p.Name ++ '/' :: p.TargetSystem)) from rfl]
  rw [List.append_assoc, List.cons_append]

theorem componentFinish_ok_elim {host ns nm sub : Str} {c : Component}
    (h : componentFinish host ns nm sub = .ok c) :
    c = ⟨⟨host, ns, nm⟩, sub⟩ ∧ registryNameOk ns = true ∧ registryNameOk nm = true := by
  unfold componentFinish at h
  cases hcn : checkRegistryNamespace
      (str "source address must have two more components after the hostname: the namespace and the name") ns with
  | error e => rw [hcn] at h; exact Except.noConfusion h
  | ok n =>
    rw [hcn] at h
    obtain ⟨hn, hok⟩ := checkRegistryNamespace_ok_elim hcn
    split at h
    next e heq => exact Except.noConfusion heq
    next n2 heq =>
      injection heq with heq
      subst heq
      split at h
      next hnm =>
        injection h with h
        rw [← h, hn]
        exact ⟨rfl, hok, hnm⟩
      next => exact Except.noConfusion h

theorem componentFinish_of_ok {ns nm : Str} (host sub : Str)
    (h1 : registryNameOk ns = true) (h2 : registryNameOk nm = true) :
    componentFinish host ns nm sub = .ok ⟨⟨host, ns, nm⟩, sub⟩ := by
  unfold componentFinish
  simp only [checkRegistryNamespace_of_ok _ h1]
  rw [if_pos h2]

theorem moduleFinish_ok_elim {host ns nm ts sub : Str} {m : ModuleSourceRegistry}
    (h : moduleFinish host ns nm ts sub = .ok m) :
    m = ⟨⟨host, ns, nm, ts⟩, sub⟩ ∧ registryNameOk ns = true ∧
      registryNameOk nm = true ∧ targetSystemOk ts = true := by
  unfold moduleFinish at h
  cases hcn : checkRegistryNamespace
      (str "source address must have three more components after the hostname: the namespace, the name, and the target system") ns with
  | error e => rw [hcn] at h; exact Except.noConfusion h
  | ok n =>
    rw [hcn] at h
    obtain ⟨hn, hok⟩ := checkRegistryNamespace_ok_elim hcn
    split at h
    next e heq => exact Except.noConfusion heq
    next n2 heq =>
      injection heq with heq
      subst heq
      split at h
      · exact Except.noConfusion h
      next hnm =>
        split at h
        · exact Except.noConfusion h
        next hts =>
          injection h with h
          rw [← h, hn]
          have hnm2 : registryNameOk nm = true := by simpa using hnm
          have hts2 : targetSystemOk ts = true := by simpa using hts
          exact ⟨rfl, hok, hnm2, hts2⟩

theorem moduleFinish_of_ok {ns nm ts : Str} (host sub : Str)
    (h1 : registryNameOk ns = true) (h2 : registryNameOk nm = true)
    (h3 : targetSystemOk ts = true) :
    moduleFinish host ns nm ts sub = .ok ⟨⟨host, ns, nm, ts⟩, sub⟩ := by
  unfold moduleFinish
  simp only [checkRegistryNamespace_of_ok _ h1]
  rw [if_neg (by simp [h2]), if_neg (by simp [h3])]

theorem ParseComponentSource_wf {raw : Str} {c : Component}
    (hp : ParseComponentSource raw = .ok c) : ComponentWF c = true := by
  have hD : hostRegOk DefaultComponentRegistryHost = true := by decide
  unfold ParseComponentSource at hp
  split at hp
  · exact Except.noConfusion hp
  next hesc =>
    split at hp
    · exact Except.noConfusion hp
    next hq =>
      have hesc' : subdirEscapes (splitPackageSubdir raw).2 = false :=
        Bool.eq_false_iff.mpr hesc
      have hq' : (raw.any (· = '?')) = false := Bool.eq_false_iff.mpr hq
      have hsub := splitPackageSubdir_stored hq' hesc'
      split at hp
      next ns nm heq =>
        obtain ⟨hc, hns, hnm⟩ := componentFinish_ok_elim hp
        rw [hc]
        unfold ComponentWF
        simp [hD, hns, hnm, hsub]
      next hh ns nm heq =>
        cases hrh : parseRegistryHost (str "component") hh with
        | error e => rw [hrh] at hp; exact Except.noConfusion hp
        | ok hn =>
          rw [hrh] at hp
          have hp' : componentFinish hn ns nm (splitPackageSubdir raw).2 = .ok c := hp
          obtain ⟨hc, hns, hnm⟩ := componentFinish_ok_elim hp'
          rw [hc]
          unfold ComponentWF
          simp [parseRegistryHost_ok_elim hrh, hns, hnm, hsub]
      next => exact Except.noConfusion hp

theorem ParseComponentSource_roundtrip {c : Component} (hw : ComponentWF c = true) :
    ParseComponentSource (Component.String c) = .ok c := by
  unfold ComponentWF at hw
  simp only [Bool.and_eq_true] at hw
  obtain ⟨⟨⟨hhost, hns⟩, hnm⟩, hsub⟩ := hw
  obtain ⟨hnorm, hdot, hres⟩ := hostRegOk_elim hhost
  have hsv := svchost_of_hostNormOk hnorm
  have hostchars := svchost_ok_chars hsv
  obtain ⟨c0, r0, hhd, hc0a⟩ := svchost_ok_head hsv
  obtain ⟨hnse, hnsslash, hnsq⟩ := registryNameOk_facts hns
  obtain ⟨hnme, hnmslash, hnmq⟩ := registryNameOk_facts hnm
  obtain ⟨hescF, hsubq, hclean⟩ := subdirStoredOk_elim hsub
  have hsegs : ∀ t ∈ [c.Package.Host, c.Package.Namespace, c.Package.Name],
      t ≠ [] ∧ ∀ ch ∈ t, ch ≠ '/' := by
    intro t ht
    simp only [List.mem_cons, List.not_mem_nil, or_false] at ht
    rcases ht with h | h | h <;> subst h
    · exact ⟨by rw [hhd]; simp, fun ch hc => (hostchar_ne (hostchars ch hc)).1⟩
    · exact ⟨hnse, hnsslash⟩
    · exact ⟨hnme, hnmslash⟩
  have hpkgjoin := ComponentPackage_String_join c.Package
  have hpkgq : ∀ ch ∈ c.Package.String, ch ≠ '?' := by
    intro ch hch
    rw [hpkgjoin] at hch
    rcases mem_joinChar hch with h | ⟨t, ht, hcht⟩
    · rw [h]; decide
    · simp only [List.mem_cons, List.not_mem_nil, or_false] at ht
      rcases ht with h | h | h <;> subst h
      · exact (hostchar_ne (hostchars ch hcht)).2
      · exact hnsq ch hcht
      · exact hnmq ch hcht
  have hps : splitPackageSubdir (Component.String c) = (c.Package.String, c.Subdir) := by
    by_cases hs0 : c.Subdir = []
    · have hstr : Component.String c = c.Package.String := by
        unfold Component.String; rw [if_pos hs0]
      have hnone : splitFirstDoubleSlash c.Package.String = none := by
        rw [hpkgjoin]; exact sfds_none_of_join (by simp) hsegs
      rw [hstr, hs0]
      unfold splitPackageSubdir
      simp [hnone]
    · have hstr : Component.String c = c.Package.String ++ '/' :: '/' :: c.Subdir := by
        unfold Component.String; rw [if_neg hs0]
      have hsome : splitFirstDoubleSlash (Component.String c) =
          some (c.Package.String, c.Subdir) := by
        rw [hstr, hpkgjoin]; exact sfds_join_subdir _ (by simp) hsegs
      rcases hclean with h | hcleaneq
      · exact absurd h hs0
      unfold splitPackageSubdir
      simp [hsome, hs0, hcleaneq]
  have hsubq' : ∀ ch ∈ c.Subdir, ch ≠ '?' := by
    intro ch hch hche
    rw [List.any_eq_false] at hsubq
    have := hsubq ch hch
    simp only [decide_eq_true_eq] at this
    exact this hche
  have hallq : ((Component.String c).any (· = '?')) = false := by
    rw [List.any_eq_false]
    intro ch hch
    simp only [decide_eq_true_eq]
    by_cases hs0 : c.Subdir = []
    · unfold Component.String at hch
      rw [if_pos hs0] at hch
      exact hpkgq ch hch
    · unfold Component.String at hch
      rw [if_neg hs0] at hch
      rcases List.mem_append.mp hch with h | h
      · exact hpkgq ch h
      · rcases List.mem_cons.mp h with h | h
        · rw [h]; decide
        · rcases List.mem_cons.mp h with h | h
          · rw [h]; decide
          · exact hsubq' ch h
  have hsplit : splitChar '/' c.Package.String =
      [c.Package.Host, c.Package.Namespace, c.Package.Name] := by
    rw [hpkgjoin]
    exact splitChar_joinChar (by simp) (fun t ht => (hsegs t ht).2)
  unfold ParseComponentSource
  simp only [hps]
  rw [if_neg (by simp [hescF]), if_neg (by simp [hallq])]
  simp only [hsplit]
  simp only [parseRegistryHost_of_ok _ hhost]
  rw [componentFinish_of_ok _ _ hns hnm]

/-! ## Lemmas: module registry family -/

theorem isModuleSourceLocal_of_head {c : Char} {rest : Str} (hc : c ≠ '.') :
    isModuleSourceLocal (c :: rest) = false := by
  have hbe : ('.' == c) = false := beq_eq_false_iff_ne.mpr (fun he => hc he.symm)
  have p : ∀ l, List.isPrefixOf ('.' :: l) (c :: rest) = false := by
    intro l
    simp [List.isPrefixOf, hbe]
  unfold isModuleSourceLocal moduleSourceLocalPrefixes
  rw [show str "./" = '.' :: str "/" from rfl, show str "../" = '.' :: str "./" from rfl,
    show str ".\\" = '.' :: str "\\" from rfl, show str "..\\" = '.' :: str ".\\" from rfl]
  simp [p]

theorem ParseRawModuleSourceRegistry_wf {raw : Str} {m : ModuleSourceRegistry}
    (hp : ParseRawModuleSourceRegistry raw = .ok m) : ModuleWF m = true := by
  have hD : hostRegOk DefaultModuleRegistryHost = true := by decide
  unfold ParseRawModuleSourceRegistry at hp
  split at hp
  · exact Except.noConfusion hp
  next hloc =>
    split at hp
    · exact Except.noConfusion hp
    next hesc =>
      split at hp
      · exact Except.noConfusion hp
      next hq =>
        have hesc' : subdirEscapes (splitPackageSubdir raw).2 = false :=
          Bool.eq_false_iff.mpr hesc
        have hq' : (raw.any (· = '?')) = false := Bool.eq_false_iff.mpr hq
        have hsub := splitPackageSubdir_stored hq' hesc'
        split at hp
        next ns nm ts heq =>
          obtain ⟨hm, hns, hnm, hts⟩ := moduleFinish_ok_elim hp
          rw [hm]
          unfold ModuleWF
          simp [hD, hns, hnm, hts, hsub]
        next hh ns nm ts heq =>
          cases hrh : parseRegistryHost (str "module") hh with
          | error e => rw [hrh] at hp; exact Except.noConfusion hp
          | ok hn =>
            rw [hrh] at hp
            have hp' : moduleFinish hn ns nm ts (splitPackageSubdir raw).2 = .ok m := hp
            obtain ⟨hm, hns, hnm, hts⟩ := moduleFinish_ok_elim hp'
            rw [hm]
            unfold ModuleWF
            simp [parseRegistryHost_ok_elim hrh, hns, hnm, hts, hsub]
        next => exact Except.noConfusion hp

theorem ParseRawModuleSourceRegistry_roundtrip {m : ModuleSourceRegistry}
    (hw : ModuleWF m = true) :
    ParseRawModuleSourceRegistry (ModuleSourceRegistry.String m) = .ok m := by
  unfold ModuleWF at hw
  simp only [Bool.and_eq_true] at hw
  obtain ⟨⟨⟨⟨hhost, hns⟩, hnm⟩, hts⟩, hsub⟩ := hw
  obtain ⟨hnorm, hdot, hres⟩ := hostRegOk_elim hhost
  have hsv := svchost_of_hostNormOk hnorm
  have hostchars := svchost_ok_chars hsv
  obtain ⟨c0, r0, hhd, hc0a⟩ := svchost_ok_head hsv
  obtain ⟨hnse, hnsslash, hnsq⟩ := registryNameOk_facts hns
  obtain ⟨hnme, hnmslash, hnmq⟩ := registryNameOk_facts hnm
  obtain ⟨htse, htsslash, htsq⟩ := targetSystemOk_facts hts
  obtain ⟨hescF, hsubq, hclean⟩ := subdirStoredOk_elim hsub
  have hsegs : ∀ t ∈ [m.PackageAddr.Host, m.PackageAddr.Namespace, m.PackageAddr.Name,
      m.PackageAddr.TargetSystem], t ≠ [] ∧ ∀ ch ∈ t, ch ≠ '/' := by
    intro t ht
    simp only [List.mem_cons, List.not_mem_nil, or_false] at ht
    rcases ht with h | h | h | h <;> subst h
    · exact ⟨by rw [hhd]; simp, fun ch hc => (hostchar_ne (hostchars ch hc)).1⟩
    · exact ⟨hnse, hnsslash⟩
    · exact ⟨hnme, hnmslash⟩
    · exact ⟨htse, htsslash⟩
  have hpkgjoin := ModuleRegistryPackage_String_join m.PackageAddr
  have hpkgq : ∀ ch ∈ m.PackageAddr.String, ch ≠ '?' := by
    intro ch hch
    rw [hpkgjoin] at hch
    rcases mem_joinChar hch with h | ⟨t, ht, hcht⟩
    · rw [h]; decide
    · simp only [List.mem_cons, List.not_mem_nil, or_false] at ht
      rcases ht with h | h | h | h <;> subst h
      · exact (hostchar_ne (hostchars ch hcht)).2
      · exact hnsq ch hcht
      · exact hnmq ch hcht
      · exact htsq ch hcht
  have hps : splitPackageSubdir (ModuleSourceRegistry.String m) =
      (m.PackageAddr.String, m.Subdir) := by
    by_cases hs0 : m.Subdir = []
    · have hstr : ModuleSourceRegistry.String m = m.PackageAddr.String := by
        unfold ModuleSourceRegistry.String; rw [if_pos hs0]
      have hnone : splitFirstDoubleSlash m.PackageAddr.String = none := by
        rw [hpkgjoin]; exact sfds_none_of_join (by simp) hsegs
      rw [hstr, hs0]
      unfold splitPackageSubdir
      simp [hnone]
    · have hstr : ModuleSourceRegistry.String m =
          m.PackageAddr.String ++ '/' :: '/' :: m.Subdir := by
        unfold ModuleSourceRegistry.String; rw [if_neg hs0]
      have hsome : splitFirstDoubleSlash (ModuleSourceRegistry.String m) =
          some (m.PackageAddr.String, m.Subdir) := by
        rw [hstr, hpkgjoin]; exact sfds_join_subdir _ (by simp) hsegs
      rcases hclean with h | hcleaneq
      · exact absurd h hs0
      unfold splitPackageSubdir
      simp [hsome, hs0, hcleaneq]
  have hsubq' : ∀ ch ∈ m.Subdir, ch ≠ '?' := by
    intro ch hch hche
    rw [List.any_eq_false] at hsubq
    have := hsubq ch hch
    simp only [decide_eq_true_eq] at this
    exact this hche
  have hallq : ((ModuleSourceRegistry.String m).any (· = '?')) = false := by
    rw [List.any_eq_false]
    intro ch hch
    simp only [decide_eq_true_eq]
    by_cases hs0 : m.Subdir = []
    · unfold ModuleSourceRegistry.String at hch
      rw [if_pos hs0] at hch
      exact hpkgq ch hch
    · unfold ModuleSourceRegistry.String at hch
      rw [if_neg hs0] at hch
      rcases List.mem_append.mp hch with h | h
      · exact hpkgq ch h
      · rcases List.mem_cons.mp h with h | h
        · rw [h]; decide
        · rcases List.mem_cons.mp h with h | h
          · rw [h]; decide
          · exact hsubq' ch h
  have hc0dot : c0 ≠ '.' := by
    intro he
    rw [he] at hc0a
    exact absurd hc0a (by decide)
  have hhead : ∃ rest2, ModuleSourceRegistry.String m = c0 :: rest2 := by
    by_cases hs0 : m.Subdir = []
    · unfold ModuleSourceRegistry.String
      rw [if_pos hs0]
      unfold ModuleRegistryPackage.String hostForDisplay
      rw [hhd, List.cons_append]
      exact ⟨_, rfl⟩
    · unfold ModuleSourceRegistry.String
      rw [if_neg hs0]
      unfold ModuleRegistryPackage.String hostForDisplay
      rw [hhd, List.cons_append, List.cons_append]
      exact ⟨_, rfl⟩
  obtain ⟨rest2, hhead⟩ := hhead
  have hloc : isModuleSourceLocal (ModuleSourceRegistry.String m) = false := by
    rw [hhead]
    exact isModuleSourceLocal_of_head hc0dot
  have hsplit : splitChar '/' m.PackageAddr.String =
      [m.PackageAddr.Host, m.PackageAddr.Namespace, m.PackageAddr.Name,
        m.PackageAddr.TargetSystem] := by
    rw [hpkgjoin]
    exact splitChar_joinChar (by simp) (fun t ht => (hsegs t ht).2)
  unfold ParseRawModuleSourceRegistry
  rw [if_neg (by simp [hloc])]
  simp only [hps]
  rw [if_neg (by simp [hescF]), if_neg (by simp [hallq])]
  simp only [hsplit]
  simp only [parseRegistryHost_of_ok _ hhost]
  rw [moduleFinish_of_ok _ _ hns hnm hts]

/-! ## Lemmas: reserved VCS-shorthand hosts -/

theorem parseRegistryHost_reserved (kind : Str) {hst : Str}
    (hmem : hst ∈ reservedVcsHosts) :
    parseRegistryHost kind hst = .error (reservedHostMsg kind hst) := by
  have hmem' : hst = str "github.com" ∨ hst = str "bitbucket.org" ∨
      hst = str "gitlab.com" := by
    simpa [reservedVcsHosts] using hmem
  rcases hmem' with h | h | h <;> subst h
  · unfold parseRegistryHost
    simp only [show svchostForComparison (str "github.com") = .ok (str "github.com") from rfl]
    rw [if_neg (by decide), if_pos (by decide)]
  · unfold parseRegistryHost
    simp only [show svchostForComparison (str "bitbucket.org") = .ok (str "bitbucket.org") from rfl]
    rw [if_neg (by decide), if_pos (by decide)]
  · unfold parseRegistryHost
    simp only [show svchostForComparison (str "gitlab.com") = .ok (str "gitlab.com") from rfl]
    rw [if_neg (by decide), if_pos (by decide)]

theorem reservedVcs_facts {hst : Str} (hmem : hst ∈ reservedVcsHosts) :
    hst ≠ [] ∧ ∀ c ∈ hst, c ≠ '/' ∧ c ≠ '?' := by
  have hmem' : hst = str "github.com" ∨ hst = str "bitbucket.org" ∨
      hst = str "gitlab.com" := by
    simpa [reservedVcsHosts] using hmem
  rcases hmem' with h | h | h <;> subst h <;> exact ⟨by decide, by decide⟩

theorem reservedHost_comp {hst ns nm : Str} (hmem : hst ∈ reservedVcsHosts)
    (h1 : ns ≠ []) (h2 : nm ≠ [])
    (hc1 : ∀ c ∈ ns, c ≠ '/' ∧ c ≠ '?') (hc2 : ∀ c ∈ nm, c ≠ '/' ∧ c ≠ '?') :
    ParseComponentSource (joinChar '/' [hst, ns, nm]) =
      .error (reservedHostMsg (str "component") hst) := by
  obtain ⟨hhne, hhch⟩ := reservedVcs_facts hmem
  have hsegs : ∀ t ∈ [hst, ns, nm], t ≠ [] ∧ ∀ ch ∈ t, ch ≠ '/' := by
    intro t ht
    simp only [List.mem_cons, List.not_mem_nil, or_false] at ht
    rcases ht with h | h | h <;> subst h
    · exact ⟨hhne, fun ch hc => (hhch ch hc).1⟩
    · exact ⟨h1, fun ch hc => (hc1 ch hc).1⟩
    · exact ⟨h2, fun ch hc => (hc2 ch hc).1⟩
  have hnone := sfds_none_of_join (by simp) hsegs
  have hps : splitPackageSubdir (joinChar '/' [hst, ns, nm]) =
      (joinChar '/' [hst, ns, nm], []) := by
    unfold splitPackageSubdir; rw [hnone]
  have hallq : ((joinChar '/' [hst, ns, nm]).any (· = '?')) = false := by
    rw [List.any_eq_false]
    intro ch hch
    simp only [decide_eq_true_eq]
    rcases mem_joinChar hch with h | ⟨t, ht, hcht⟩
    · rw [h]; decide
    · simp only [List.mem_cons, List.not_mem_nil, or_false] at ht
      rcases ht with h | h | h <;> subst h
      · exact (hhch ch hcht).2
      · exact (hc1 ch hcht).2
      · exact (hc2 ch hcht).2
  have hsplit : splitChar '/' (joinChar '/' [hst, ns, nm]) = [hst, ns, nm] :=
    splitChar_joinChar (by simp) (fun t ht => (hsegs t ht).2)
  unfold ParseComponentSource
  simp only [hps]
  rw [if_neg (by decide), if_neg (by simp [hallq])]
  simp only [hsplit]
  simp only [parseRegistryHost_reserved (str "component") hmem]

theorem reservedHost_mod {hst ns nm ts : Str} (hmem : hst ∈ reservedVcsHosts)
    (h1 : ns ≠ []) (h2 : nm ≠ []) (h3 : ts ≠ [])
    (hc1 : ∀ c ∈ ns, c ≠ '/' ∧ c ≠ '?') (hc2 : ∀ c ∈ nm, c ≠ '/' ∧ c ≠ '?')
    (hc3 : ∀ c ∈ ts, c ≠ '/' ∧ c ≠ '?') :
    ParseRawModuleSourceRegistry (joinChar '/' [hst, ns, nm, ts]) =
      .error (reservedHostMsg (str "module") hst) := by
  obtain ⟨hhne, hhch⟩ := reservedVcs_facts hmem
  have hsegs : ∀ t ∈ [hst, ns, nm, ts], t ≠ [] ∧ ∀ ch ∈ t, ch ≠ '/' := by
    intro t ht
    simp only [List.mem_cons, List.not_mem_nil, or_false] at ht
    rcases ht with h | h | h | h <;> subst h
    · exact ⟨hhne, fun ch hc => (hhch ch hc).1⟩
    · exact ⟨h1, fun ch hc => (hc1 ch hc).1⟩
    · exact ⟨h2, fun ch hc => (hc2 ch hc).1⟩
    · exact ⟨h3, fun ch hc => (hc3 ch hc).1⟩
  have hnone := sfds_none_of_join (by simp) hsegs
  have hps : splitPackageSubdir (joinChar '/' [hst, ns, nm, ts]) =
      (joinChar '/' [hst, ns, nm, ts], []) := by
    unfold splitPackageSubdir; rw [hnone]
  have hallq : ((joinChar '/' [hst, ns, nm, ts]).any (· = '?')) = false := by
    rw [List.any_eq_false]
    intro ch hch
    simp only [decide_eq_true_eq]
    rcases mem_joinChar hch with h | ⟨t, ht, hcht⟩
    · rw [h]; decide
    · simp only [List.mem_cons, List.not_mem_nil, or_false] at ht
      rcases ht with h | h | h | h <;> subst h
      · exact (hhch ch hcht).2
      · exact (hc1 ch hcht).2
      · exact (hc2 ch hcht).2
      · exact (hc3 ch hcht).2
  have hsplit : splitChar '/' (joinChar '/' [hst, ns, nm, ts]) = [hst, ns, nm, ts] :=
    splitChar_joinChar (by simp) (fun t ht => (hsegs t ht).2)
  have hmem' : hst = str "github.com" ∨ hst = str "bitbucket.org" ∨
      hst = str "gitlab.com" := by
    simpa [reservedVcsHosts] using hmem
  have hloc : isModuleSourceLocal (joinChar '/' [hst, ns, nm, ts]) = false := by
    rcases hmem' with h | h | h <;> subst h
    · rw [show joinChar '/' [str "github.com", ns, nm, ts] =
          'g' :: (str "ithub.com" ++ '/' :: joinChar '/' [ns, nm, ts]) from rfl]
      exact isModuleSourceLocal_of_head (by decide)
    · rw [show joinChar '/' [str "bitbucket.org", ns, nm, ts] =
          'b' :: (str "itbucket.org" ++ '/' :: joinChar '/' [ns, nm, ts]) from rfl]
      exact isModuleSourceLocal_of_head (by decide)
    · rw [show joinChar '/' [str "gitlab.com", ns, nm, ts] =
          'g' :: (str "itlab.com" ++ '/' :: joinChar '/' [ns, nm, ts]) from rfl]
      exact isModuleSourceLocal_of_head (by decide)
  unfold ParseRawModuleSourceRegistry
  rw [if_neg (by simp [hloc])]
  simp only [hps]
  rw [if_neg (by decide), if_neg (by simp [hallq])]
  simp only [hsplit]
  simp only [parseRegistryHost_reserved (str "module") hmem]

/-! ## The claims -/

/-- C1: every string accepted by one of the three top-level parsers yields an
address whose canonical `String()` form parses back to the same address,
field for field, for all three address families (and hence rendering is
idempotent on accepted inputs). -/
theorem C1_roundtrip :
    (∀ (s : Str) (a : Provider), ParseProviderSource s = .ok a →
      ParseProviderSource (Provider.String a) = .ok a) ∧
    (∀ (s : Str) (c : Component), ParseComponentSource s = .ok c →
      ParseComponentSource (Component.String c) = .ok c) ∧
    (∀ (s : Str) (m : ModuleSourceRegistry), ParseRawModuleSourceRegistry s = .ok m →
      ParseRawModuleSourceRegistry (ModuleSourceRegistry.String m) = .ok m) := by
  refine ⟨fun s a hp => ?_, fun s c hp => ?_, fun s m hp => ?_⟩
  · exact ParseProviderSource_roundtrip (ParseProviderSource_wf hp)
  · exact ParseComponentSource_roundtrip (ParseComponentSource_wf hp)
  · exact ParseRawModuleSourceRegistry_roundtrip (ParseRawModuleSourceRegistry_wf hp)

/-- C1, witnessed at one accepted input per family. -/
theorem C1_roundtrip_witness :
    ParseProviderSource
        (Provider.String ⟨str "aws", str "hashicorp", str "registry.terraform.io"⟩) =
      .ok ⟨str "aws", str "hashicorp", str "registry.terraform.io"⟩ ∧
    ParseComponentSource
        (Component.String ⟨⟨str "registry.terraform.io", str "hashicorp", str "k8-cluster"⟩,
          str "path/to/dir"⟩) =
      .ok ⟨⟨str "registry.terraform.io", str "hashicorp", str "k8-cluster"⟩, str "path/to/dir"⟩ ∧
    ParseRawModuleSourceRegistry
        (ModuleSourceRegistry.String ⟨⟨str "registry.terraform.io", str "hashicorp",
          str "consul", str "aws"⟩, []⟩) =
      .ok ⟨⟨str "registry.terraform.io", str "hashicorp", str "consul", str "aws"⟩, []⟩ :=
  ⟨C1_roundtrip.1 (str "hashicorp/aws") _ (by rfl),
   C1_roundtrip.2.1 (str "hashicorp/k8-cluster//path/to/dir") _ (by rfl),
   C1_roundtrip.2.2 (str "hashicorp/consul/aws") _ (by rfl)⟩

/-- C3: a single-segment provider source (no slash) parses to the
unknown-namespace sentinel on the default registry host; the literal
"terraform" is parsed exactly this way and is not promoted to the built-in
provider host/namespace pair. -/
theorem C3_single_segment :
    (∀ t : Str, (∀ c ∈ t, c ≠ '/') → t ≠ [] → providerTypeSegOk t = true →
      ParseProviderSource t =
        .ok ⟨t, UnknownProviderNamespace, DefaultProviderRegistryHost⟩) ∧
    ParseProviderSource (str "terraform") =
      .ok ⟨str "terraform", UnknownProviderNamespace, DefaultProviderRegistryHost⟩ ∧
    Provider.IsBuiltIn
      ⟨str "terraform", UnknownProviderNamespace, DefaultProviderRegistryHost⟩ = false := by
  refine ⟨fun t hslash hne hok => ?_, by rfl, by rfl⟩
  have hsplit : splitChar '/' t = [t] := splitChar_no_sep hslash
  unfold ParseProviderSource
  simp only [hsplit]
  rw [if_neg hne]
  simp only [checkProviderType_of_ok t hok]

/-- C3, witnessed at the single segment "happycloud". -/
theorem C3_single_segment_witness :
    ParseProviderSource (str "happycloud") =
      .ok ⟨str "happycloud", UnknownProviderNamespace, DefaultProviderRegistryHost⟩ :=
  C3_single_segment.1 (str "happycloud") (by decide) (by decide) (by decide)

/-- C4 counterexample: the claim says `parseProviderSource` errors on the
single-segment input "unknown-namespace"; in fact the parse succeeds, reading
the segment as a legacy unqualified type. -/
theorem C4_counterexample :
    ParseProviderSource (str "unknown-namespace") =
      .ok ⟨str "unknown-namespace", UnknownProviderNamespace, DefaultProviderRegistryHost⟩ := by
  rfl

/-- C4 (amended): parsing "unknown-namespace" succeeds as a single-segment
legacy address; it is validation — `Provider.Validate` on the parsed value
(the sentinel namespace fails the identifier rules) and the strict
`ValidateProviderAddress` (which demands three segments) — that rejects it. -/
theorem C4_amended_validation :
    ParseProviderSource (str "unknown-namespace") =
      .ok ⟨str "unknown-namespace", UnknownProviderNamespace, DefaultProviderRegistryHost⟩ ∧
    (∃ e, Provider.Validate
      ⟨str "unknown-namespace", UnknownProviderNamespace, DefaultProviderRegistryHost⟩ =
        .error e) ∧
    (∃ e, ValidateProviderAddress (str "unknown-namespace") = .error e) := by
  exact ⟨rfl, ⟨_, rfl⟩, ⟨_, rfl⟩⟩

/-- C7: when an input is not a local path and the registry parse fails, the
module source dispatcher reports the uniform `unsupported module source
"<raw>"` error; in particular "boop/bloop" fails exactly that way. -/
theorem C7_unsupported_fallback :
    (∀ (raw e : Str), isModuleSourceLocal raw = false →
      ParseRawModuleSourceRegistry raw = .error e →
      ParseRawModuleSource raw =
        .error (str "unsupported module source " ++ quoteStr raw)) ∧
    ParseRawModuleSource (str "boop/bloop") =
      .error (str "unsupported module source \"boop/bloop\"") := by
  refine ⟨fun raw e hloc hreg => ?_, by rfl⟩
  unfold ParseRawModuleSource
  rw [if_neg (by simp [hloc])]
  simp only [hreg]

/-- C7, witnessed at "boop/bloop" (two segments: a structural registry
failure). -/
theorem C7_unsupported_fallback_witness :
    ParseRawModuleSource (str "boop/bloop") =
      .error (str "unsupported module source " ++ quoteStr (str "boop/bloop")) :=
  C7_unsupported_fallback.1 (str "boop/bloop")
    (str "a module registry source address must have either three or four slash-separated components")
    (by decide) (by rfl)

/-- C8: identifier validation accepts consecutive interior dashes or
underscores: any nonempty string of letters, digits, dashes and underscores
with alphanumeric endpoints passes `ParseProviderPart` unchanged; concretely
"abc--123" passes, and "okay--namespace" is accepted as a namespace by the
provider source parser. -/
theorem C8_interior_separators :
    (∀ s : Str, s ≠ [] → (∀ c ∈ s, providerPartChar c = true) →
      headAlnum s = true → lastAlnum s = true →
      ParseProviderPart s = .ok s) ∧
    ParseProviderPart (str "abc--123") = .ok (str "abc--123") ∧
    ParseProviderSource (str "example.com/okay--namespace/aws") =
      .ok ⟨str "aws", str "okay--namespace", str "example.com"⟩ := by
  refine ⟨fun s hne hall hh hl => ?_, by rfl, by rfl⟩
  have h0 : s.isEmpty = false := by
    cases s with
    | nil => exact absurd rfl hne
    | cons c cs => rfl
  have hok : providerPartOk s = true := by
    unfold providerPartOk
    rw [h0, List.all_eq_true.mpr hall, hh, hl]
    rfl
  unfold ParseProviderPart
  rw [if_neg hne, if_pos hok]

/-- C8, witnessed at "abc--123". -/
theorem C8_interior_separators_witness :
    ParseProviderPart (str "abc--123") = .ok (str "abc--123") :=
  C8_interior_separators.1 (str "abc--123") (by decide) (by decide) (by decide) (by decide)

/-- C10: `Provider.IsLegacy` holds exactly when the namespace is the legacy
sentinel AND the hostname is the default registry host; the sentinel
namespace on any other host is not legacy. -/
theorem C10_is_legacy :
    (∀ p : Provider, Provider.IsLegacy p = true ↔
      (p.Hostname = DefaultProviderRegistryHost ∧ p.Namespace = LegacyProviderNamespace)) ∧
    Provider.IsLegacy ⟨str "aws", LegacyProviderNamespace, DefaultProviderRegistryHost⟩ = true ∧
    Provider.IsLegacy ⟨str "aws", LegacyProviderNamespace, str "registry.terraform.com"⟩ = false ∧
    Provider.IsLegacy ⟨str "aws", str "hashicorp", DefaultProviderRegistryHost⟩ = false := by
  refine ⟨fun p => ?_, by rfl, by rfl, by rfl⟩
  unfold Provider.IsLegacy
  simp [decide_eq_true_eq]

theorem ne_append_cons (host rest : Str) : rest ≠ host ++ '/' :: rest := by
  intro h
  have hl := congrArg List.length h
  simp [List.length_append] at hl
  omega

/-- C2: parsing preserves the case of the identifier segments: for every
successfully parsed provider, component, or module registry address, of any
accepted segment shape (implied default host included), the stored
namespace, name/type and target-system fields are byte-identical to the
corresponding slash-separated input segments (only the hostname segment,
when present, is normalized). -/
theorem C2_case_preserved :
    (∀ (s : Str) (a : Provider), ParseProviderSource s = .ok a →
      (splitChar '/' s = [a.Type'] ∧ a.Namespace = UnknownProviderNamespace) ∨
      splitChar '/' s = [a.Namespace, a.Type'] ∨
      ∃ h, splitChar '/' s = [h, a.Namespace, a.Type']) ∧
    (∀ (raw : Str) (c : Component), ParseComponentSource raw = .ok c →
      splitChar '/' (splitPackageSubdir raw).1 = [c.Package.Namespace, c.Package.Name] ∨
      ∃ h, splitChar '/' (splitPackageSubdir raw).1 =
        [h, c.Package.Namespace, c.Package.Name]) ∧
    (∀ (raw : Str) (m : ModuleSourceRegistry), ParseRawModuleSourceRegistry raw = .ok m →
      splitChar '/' (splitPackageSubdir raw).1 =
        [m.PackageAddr.Namespace, m.PackageAddr.Name, m.PackageAddr.TargetSystem] ∨
      ∃ h, splitChar '/' (splitPackageSubdir raw).1 =
        [h, m.PackageAddr.Namespace, m.PackageAddr.Name, m.PackageAddr.TargetSystem]) := by
  refine ⟨fun s a hp => ?_, fun raw c hp => ?_, fun raw m hp => ?_⟩
  · unfold ParseProviderSource at hp
    split at hp
    next t heq =>
      split at hp
      · exact Except.noConfusion hp
      next =>
        cases hct : checkProviderType t s with
        | error e => rw [hct] at hp; exact Except.noConfusion hp
        | ok t' =>
          rw [hct] at hp
          obtain ⟨ht', _⟩ := checkProviderType_ok_elim hct
          subst ht'
          have hp' : Except.ok
              (⟨t', UnknownProviderNamespace, DefaultProviderRegistryHost⟩ : Provider) =
              Except.ok a := hp
          injection hp' with hpe
          rw [← hpe]
          exact Or.inl ⟨heq, rfl⟩
    next ns t heq =>
      split at hp
      · exact Except.noConfusion hp
      next =>
        cases hct : checkProviderType t s with
        | error e => rw [hct] at hp; exact Except.noConfusion hp
        | ok t' =>
          rw [hct] at hp
          obtain ⟨ht', _⟩ := checkProviderType_ok_elim hct
          subst ht'
          cases hnsg : parseNamespaceSeg ns s with
          | error e => rw [hnsg] at hp; exact Except.noConfusion hp
          | ok n =>
            rw [hnsg] at hp
            obtain ⟨hn, _⟩ := parseNamespaceSeg_ok_elim hnsg
            subst hn
            have hp' : Except.ok (⟨t', n, DefaultProviderRegistryHost⟩ : Provider) =
                Except.ok a := hp
            injection hp' with hpe
            rw [← hpe]
            exact Or.inr (Or.inl heq)
    next h ns t heq =>
      split at hp
      · exact Except.noConfusion hp
      next =>
        cases hct : checkProviderType t s with
        | error e => rw [hct] at hp; exact Except.noConfusion hp
        | ok t' =>
          rw [hct] at hp
          obtain ⟨ht', _⟩ := checkProviderType_ok_elim hct
          subst ht'
          cases hnsg : parseNamespaceSeg ns s with
          | error e => rw [hnsg] at hp; exact Except.noConfusion hp
          | ok n =>
            rw [hnsg] at hp
            obtain ⟨hn, _⟩ := parseNamespaceSeg_ok_elim hnsg
            subst hn
            cases hsv : svchostForComparison h with
            | error e => rw [hsv] at hp; exact Except.noConfusion hp
            | ok hn2 =>
              rw [hsv] at hp
              have hp' : Except.ok (⟨t', n, hn2⟩ : Provider) = Except.ok a := hp
              injection hp' with hpe
              rw [← hpe]
              exact Or.inr (Or.inr ⟨h, heq⟩)
    next => exact Except.noConfusion hp
  · unfold ParseComponentSource at hp
    split at hp
    · exact Except.noConfusion hp
    next =>
      split at hp
      · exact Except.noConfusion hp
      next =>
        split at hp
        next ns nm heq =>
          obtain ⟨hc, _, _⟩ := componentFinish_ok_elim hp
          rw [hc]
          exact Or.inl heq
        next hh ns nm heq =>
          cases hrh : parseRegistryHost (str "component") hh with
          | error e => rw [hrh] at hp; exact Except.noConfusion hp
          | ok hn =>
            rw [hrh] at hp
            have hp' : componentFinish hn ns nm (splitPackageSubdir raw).2 = .ok c := hp
            obtain ⟨hc, _, _⟩ := componentFinish_ok_elim hp'
            rw [hc]
            exact Or.inr ⟨hh, heq⟩
        next => exact Except.noConfusion hp
  · unfold ParseRawModuleSourceRegistry at hp
    split at hp
    · exact Except.noConfusion hp
    next =>
      split at hp
      · exact Except.noConfusion hp
      next =>
        split at hp
        · exact Except.noConfusion hp
        next =>
          split at hp
          next ns nm ts heq =>
            obtain ⟨hm, _, _, _⟩ := moduleFinish_ok_elim hp
            rw [hm]
            exact Or.inl heq
          next hh ns nm ts heq =>
            cases hrh : parseRegistryHost (str "module") hh with
            | error e => rw [hrh] at hp; exact Except.noConfusion hp
            | ok hn =>
              rw [hrh] at hp
              have hp' : moduleFinish hn ns nm ts (splitPackageSubdir raw).2 = .ok m := hp
              obtain ⟨hm, _, _, _⟩ := moduleFinish_ok_elim hp'
              rw [hm]
              exact Or.inr ⟨hh, heq⟩
          next => exact Except.noConfusion hp

/-- C2, witnessed at mixed-case default-host inputs: the 2-segment provider
source "HashiCorp/AWS", the 2-segment component source
"HashiCorp/K8-Cluster" and the 3-segment module source "HashiCorp/Consul/aws". -/
theorem C2_case_preserved_witness :
    ((splitChar '/' (str "HashiCorp/AWS") = [str "AWS"] ∧
        str "HashiCorp" = UnknownProviderNamespace) ∨
      splitChar '/' (str "HashiCorp/AWS") = [str "HashiCorp", str "AWS"] ∨
      ∃ h, splitChar '/' (str "HashiCorp/AWS") = [h, str "HashiCorp", str "AWS"]) ∧
    (splitChar '/' (splitPackageSubdir (str "HashiCorp/K8-Cluster")).1 =
        [str "HashiCorp", str "K8-Cluster"] ∨
      ∃ h, splitChar '/' (splitPackageSubdir (str "HashiCorp/K8-Cluster")).1 =
        [h, str "HashiCorp", str "K8-Cluster"]) ∧
    (splitChar '/' (splitPackageSubdir (str "HashiCorp/Consul/aws")).1 =
        [str "HashiCorp", str "Consul", str "aws"] ∨
      ∃ h, splitChar '/' (splitPackageSubdir (str "HashiCorp/Consul/aws")).1 =
        [h, str "HashiCorp", str "Consul", str "aws"]) :=
  ⟨C2_case_preserved.1 (str "HashiCorp/AWS")
      ⟨str "AWS", str "HashiCorp", str "registry.terraform.io"⟩ (by rfl),
   C2_case_preserved.2.1 (str "HashiCorp/K8-Cluster")
      ⟨⟨str "registry.terraform.io", str "HashiCorp", str "K8-Cluster"⟩, []⟩ (by rfl),
   C2_case_preserved.2.2 (str "HashiCorp/Consul/aws")
      ⟨⟨str "registry.terraform.io", str "HashiCorp", str "Consul", str "aws"⟩, []⟩ (by rfl)⟩

/-- C5: for both the component and the module registry parser, an address
whose explicit hostname segment is github.com, bitbucket.org or gitlab.com
fails with exactly the reserved-for-version-control message for its family. -/
theorem C5_reserved_hosts :
    ∀ hst ∈ reservedVcsHosts, ∀ ns nm ts : Str,
      ns ≠ [] → nm ≠ [] → ts ≠ [] →
      (∀ c ∈ ns, c ≠ '/' ∧ c ≠ '?') → (∀ c ∈ nm, c ≠ '/' ∧ c ≠ '?') →
      (∀ c ∈ ts, c ≠ '/' ∧ c ≠ '?') →
      ParseComponentSource (joinChar '/' [hst, ns, nm]) =
        .error (reservedHostMsg (str "component") hst) ∧
      ParseRawModuleSourceRegistry (joinChar '/' [hst, ns, nm, ts]) =
        .error (reservedHostMsg (str "module") hst) := by
  intro hst hmem ns nm ts h1 h2 h3 hc1 hc2 hc3
  exact ⟨reservedHost_comp hmem h1 h2 hc1 hc2,
    reservedHost_mod hmem h1 h2 h3 hc1 hc2 hc3⟩

/-- C5, witnessed at github.com with the registry-style tail segments of the
test suite. -/
theorem C5_reserved_hosts_witness :
    ParseComponentSource (joinChar '/' [str "github.com", str "HashiCorp", str "K8-Cluster"]) =
      .error (reservedHostMsg (str "component") (str "github.com")) ∧
    ParseRawModuleSourceRegistry
        (joinChar '/' [str "github.com", str "HashiCorp", str "K8-Cluster", str "aws"]) =
      .error (reservedHostMsg (str "module") (str "github.com")) :=
  C5_reserved_hosts (str "github.com") (by decide) (str "HashiCorp") (str "K8-Cluster")
    (str "aws") (by decide) (by decide) (by decide) (by decide) (by decide) (by decide)

/-- C6: the component parser rejects a subdirectory whose cleaned path
escapes the package root with exactly the path-escape message, and a
successful parse always stores exactly the cleaned subdirectory; concretely
"hashicorp/k8-cluster//../nope" fails with the literal message and
"hashicorp/k8-cluster//path/to/dir" succeeds with Subdir "path/to/dir". -/
theorem C6_subdir_escape :
    (∀ raw : Str, subdirEscapes (splitPackageSubdir raw).2 = true →
      ParseComponentSource raw = .error (str "subdirectory path " ++
        quoteStr (splitPackageSubdir raw).2 ++
        str " leads outside of the component package")) ∧
    (∀ (raw : Str) (c : Component), ParseComponentSource raw = .ok c →
      c.Subdir = (splitPackageSubdir raw).2) ∧
    ParseComponentSource (str "hashicorp/k8-cluster//../nope") =
      .error (str "subdirectory path \"../nope\" leads outside of the component package") ∧
    ParseComponentSource (str "hashicorp/k8-cluster//path/to/dir") =
      .ok ⟨⟨str "registry.terraform.io", str "hashicorp", str "k8-cluster"⟩,
        str "path/to/dir"⟩ := by
  refine ⟨fun raw hesc => ?_, fun raw c hp => ?_, by rfl, by rfl⟩
  · unfold ParseComponentSource
    rw [if_pos hesc]
  · unfold ParseComponentSource at hp
    split at hp
    · exact Except.noConfusion hp
    next =>
      split at hp
      · exact Except.noConfusion hp
      next =>
        split at hp
        next ns nm heq =>
          obtain ⟨hc, _, _⟩ := componentFinish_ok_elim hp
          rw [hc]
        next hh ns nm heq =>
          cases hrh : parseRegistryHost (str "component") hh with
          | error e => rw [hrh] at hp; exact Except.noConfusion hp
          | ok hn =>
            rw [hrh] at hp
            have hp' : componentFinish hn ns nm (splitPackageSubdir raw).2 = .ok c := hp
            obtain ⟨hc, _, _⟩ := componentFinish_ok_elim hp'
            rw [hc]
        next => exact Except.noConfusion hp

/-- C6, witnessed at the two concrete subdirectory inputs. -/
theorem C6_subdir_escape_witness :
    ParseComponentSource (str "hashicorp/k8-cluster//../nope") =
      .error (str "subdirectory path " ++
        quoteStr (splitPackageSubdir (str "hashicorp/k8-cluster//../nope")).2 ++
        str " leads outside of the component package") ∧
    (⟨⟨str "registry.terraform.io", str "hashicorp", str "k8-cluster"⟩,
        str "path/to/dir"⟩ : Component).Subdir =
      (splitPackageSubdir (str "hashicorp/k8-cluster//path/to/dir")).2 :=
  ⟨C6_subdir_escape.1 (str "hashicorp/k8-cluster//../nope") (by rfl),
   C6_subdir_escape.2.1 (str "hashicorp/k8-cluster//path/to/dir")
     ⟨⟨str "registry.terraform.io", str "hashicorp", str "k8-cluster"⟩,
       str "path/to/dir"⟩ (by rfl)⟩

/-- C9 counterexample: for the built-in provider host/namespace pair,
`ForDisplay` renders the fully-qualified "terraform.io/builtin/terraform"
(the built-in host is not the default registry host, so nothing is elided),
not a short human label such as "terraform". -/
theorem C9_counterexample :
    Provider.ForDisplay ⟨str "terraform", BuiltInProviderNamespace, BuiltInProviderHost⟩ =
      str "terraform.io/builtin/terraform" ∧
    Provider.ForDisplay ⟨str "terraform", BuiltInProviderNamespace, BuiltInProviderHost⟩ ≠
      str "terraform" := by
  exact ⟨rfl, by decide⟩

/-- C9 (amended): in each of the three families `ForDisplay` coincides with
the fully-qualified `String` form exactly when the hostname differs from the
default registry host, and elides the hostname when it is the default; the
built-in provider pair therefore renders fully qualified. -/
theorem C9_amended_display :
    (∀ p : Provider,
      (Provider.ForDisplay p = Provider.String p ↔
        p.Hostname ≠ DefaultProviderRegistryHost) ∧
      (p.Hostname = DefaultProviderRegistryHost →
        Provider.ForDisplay p = p.Namespace ++ '/' :: p.Type')) ∧
    (∀ c : Component,
      Component.ForDisplay c = Component.String c ↔
        c.Package.Host ≠ DefaultComponentRegistryHost) ∧
    (∀ m : ModuleSourceRegistry,
      ModuleSourceRegistry.ForDisplay m = ModuleSourceRegistry.String m ↔
        m.PackageAddr.Host ≠ DefaultModuleRegistryHost) ∧
    Provider.ForDisplay ⟨str "terraform", BuiltInProviderNamespace, BuiltInProviderHost⟩ =
      Provider.String ⟨str "terraform", BuiltInProviderNamespace, BuiltInProviderHost⟩ := by
  refine ⟨fun p => ⟨⟨fun heq hdef => ?_, fun hnd => ?_⟩, fun hdef => ?_⟩,
    fun c => ⟨fun heq hdef => ?_, fun hnd => ?_⟩,
    fun m => ⟨fun heq hdef => ?_, fun hnd => ?_⟩, by rfl⟩
  · have hl := congrArg List.length heq
    simp [Provider.ForDisplay, Provider.String, hostForDisplay, hdef,
      List.length_append] at hl
    omega
  · unfold Provider.ForDisplay Provider.String
    rw [if_neg hnd]
  · unfold Provider.ForDisplay
    rw [if_pos hdef]
  · have hl := congrArg List.length heq
    by_cases hs0 : c.Subdir = [] <;>
      simp [Component.ForDisplay, Component.String, ComponentPackage.String,
        ComponentPackage.ForRegistryProtocol, hostForDisplay, hdef, hs0,
        List.length_append] at hl <;> omega
  · simp [Component.ForDisplay, Component.String, hnd]
  · have hl := congrArg List.length heq
    by_cases hs0 : m.Subdir = [] <;>
      simp [ModuleSourceRegistry.ForDisplay, ModuleSourceRegistry.String,
        ModuleRegistryPackage.String, ModuleRegistryPackage.ForRegistryProtocol,
        hostForDisplay, hdef, hs0, List.length_append] at hl <;> omega
  · simp [ModuleSourceRegistry.ForDisplay, ModuleSourceRegistry.String, hnd]

/-- C9 (amended), witnessed at a default-host provider and a custom-host
component. -/
theorem C9_amended_display_witness :
    Provider.ForDisplay ⟨str "test", str "hashicorp", str "registry.terraform.io"⟩ =
      str "hashicorp" ++ '/' :: str "test" ∧
    Component.ForDisplay ⟨⟨str "example.com", str "awesomecorp", str "network"⟩, []⟩ =
      Component.String ⟨⟨str "example.com", str "awesomecorp", str "network"⟩, []⟩ :=
  ⟨(C9_amended_display.1 ⟨str "test", str "hashicorp", str "registry.terraform.io"⟩).2 rfl,
   (C9_amended_display.2.1 ⟨⟨str "example.com", str "awesomecorp", str "network"⟩, []⟩).mpr
     (by decide)⟩
